import Mathlib

/-!
# MultiAddonManager: the per-client addon delivery state machine

A shallow embedding of `src/multiaddonmanager.cpp`.

* C strings (`char *`, `std::string`, `CUtlString`) are lists of characters.
* `uint64` identities and pointers are natural numbers compared for equality only.
* `int` values are integers.  The only arithmetic on an `int` is `addon++`, executed on an
  entry that is afterwards kept only when `addon < Count()`, so no stored value can reach
  `INT_MAX` and no wrap-around is modelled.
* A `double` or `float` value is the rational number it denotes; the current time
  `Plat_FloatTime()` is an argument of every function that reads the clock.  The one
  floating-point operation of the source, the subtraction at line 340, is `doubleSub`: the
  exact difference rounded to the nearest double.  The comparison with the `float` timeout
  (promoted to `double` without change) is exact.
* `CUtlVector::operator[]` outside `0 .. Count()-1` is undefined behaviour in the source; a
  function of the embedding that performs such a read returns `none`.
* Console output (`Message`, `ConColorMsg`) is not modelled, but every vector read made to
  build a console line is.
-/

namespace MultiAddonManager

/-- A C string, without its terminating NUL. -/
abbrev CStr := List Char

/-- Entry of the pending table (`struct ClientJoinInfo_t`, lines 221-226). -/
structure ClientJoinInfo_t where
  steamid : Nat
  signon_timestamp : ℚ
  addon : Int
deriving DecidableEq

/-- What the source uses of a `CServerSideClient`: `GetNetChannel()` and
`GetClientSteamID()->ConvertToUint64()`. -/
structure CServerSideClient where
  netChannel : Nat
  steamID : Nat
deriving DecidableEq

/-- The engine's client vector, `CUtlVector<CServerSideClient *>`; `none` is a null pointer. -/
abbrev ClientList := List (Option CServerSideClient)

/-- The SDK's `SIGNONSTATE_*` enumeration (declared outside this repository). -/
inductive SignonState where
  | SIGNONSTATE_NONE
  | SIGNONSTATE_CHALLENGE
  | SIGNONSTATE_CONNECTED
  | SIGNONSTATE_NEW
  | SIGNONSTATE_PRESPAWN
  | SIGNONSTATE_SPAWN
  | SIGNONSTATE_FULL
  | SIGNONSTATE_CHANGELEVEL
deriving DecidableEq

/-- Payload of a signon message: the two fields the hook writes, and all the other fields
taken together. -/
structure CNETMsg_SignonState where
  addons : CStr
  signon_state : SignonState
  others : Nat
deriving DecidableEq

/-- One call of the original `g_pfnSendNetMessage` with its four arguments. -/
structure SendNetMessageCall where
  pNetChan : Nat
  m_MessageId : Int
  pData : CNETMsg_SignonState
  a4 : Int
deriving DecidableEq

/-- The request buffer of `HostStateRequest`: the `CUtlString` at `pRequest + 11` and the
remainder of the buffer. -/
structure HostStateRequest where
  sAddonString : CStr
  others : Nat
deriving DecidableEq

/-- The process-wide variables of the plugin (lines 60, 61, 77, 100, 228). -/
structure State where
  g_sExtraAddons : CStr
  g_vecExtraAddons : List CStr
  g_flRejoinTimeout : ℚ
  g_pNetworkGameServer : Option Nat
  g_ClientsPendingAddon : List ClientJoinInfo_t
deriving DecidableEq

/-! ## Library operations used by the source -/

/-- `CUtlVector::operator[]` / `Element(i)`: defined for `0 ≤ i < Count()` only. -/
def Element {α : Type} (v : List α) (i : Int) : Option α :=
  if i < 0 then none else v[i.toNat]?

/-- `CUtlVector::FastRemove(elem)` of the SDK: the last element is copied into slot `elem`
(unless `elem` is the last slot) and the size drops by one.  An invalid `elem` is undefined
behaviour (`none`). -/
def FastRemove {α : Type} (v : List α) (elem : Nat) : Option (List α) :=
  match v.getLast? with
  | none => none
  | some last =>
    if elem < v.length then
      if elem ≠ v.length - 1 then some ((v.set elem last).dropLast) else some v.dropLast
    else none

/-- Scanning loop of `V_SplitString` for the separator `","`: `cur` is the segment read so far
(from `pCurPos` up to the scanning position). -/
def V_SplitStringAux (cur : CStr) : CStr → List CStr
  | [] => if cur = [] then [] else [cur]
  | c :: cs =>
    if c = ',' then
      if cur = [] then V_SplitStringAux [] cs else cur :: V_SplitStringAux [] cs
    else V_SplitStringAux (cur ++ [c]) cs

/-- Modelled from the spec: `V_SplitString(pString, ",", out)` is SDK code outside `src/`; it
yields the non-empty segments of `pString` between commas, in order. -/
def V_SplitString (pString : CStr) : List CStr :=
  V_SplitStringAux [] pString

/-! ## Double-precision arithmetic -/

/-- Nearest integer to `x`, a tie going to the even one. -/
def roundHalfEven (x : ℚ) : ℤ :=
  if x - (⌊x⌋ : ℚ) < 1 / 2 then ⌊x⌋
  else if 1 / 2 < x - (⌊x⌋ : ℚ) then ⌊x⌋ + 1
  else if ⌊x⌋ % 2 = 0 then ⌊x⌋ else ⌊x⌋ + 1

/-- Binary exponent of the doubles around `q`: `⌊log₂ |q|⌋`, and `-1022` in the subnormal
range. -/
def doubleExponent (q : ℚ) : ℤ := max (Int.log 2 |q|) (-1022)

/-- The double nearest to `q` (IEEE 754 binary64, round to nearest, ties to even): `q` rounded
to a multiple of `2 ^ (doubleExponent q - 52)`.  Beyond the largest finite double the machine
yields an infinity; it compares with every finite timeout as the unbounded value here does. -/
def roundToDouble (q : ℚ) : ℚ :=
  (roundHalfEven (q / (2 : ℚ) ^ (doubleExponent q - 52)) : ℚ) *
    (2 : ℚ) ^ (doubleExponent q - 52)

/-- Subtraction of two doubles as the machine performs it: the exact difference, rounded. -/
def doubleSub (a b : ℚ) : ℚ := roundToDouble (a - b)

/-! ## The console command and variable -/

/-- Console command `mm_extra_addons` (lines 62-75); `args[0]` is the command name.  With fewer
than two arguments the current value is printed and nothing changes. -/
def mm_extra_addons (s : State) (args : List CStr) : State :=
  match args with
  | _ :: arg1 :: _ =>
    { s with g_sExtraAddons := arg1, g_vecExtraAddons := V_SplitString arg1 }
  | _ => s

/-- Console variable `mm_extra_addons_timeout` (line 78) written with a new value. -/
def mm_extra_addons_timeout (s : State) (value : ℚ) : State :=
  { s with g_flRejoinTimeout := value }

/-! ## The pending table -/

/-- `AddPendingClient` (lines 230-234). -/
def AddPendingClient (table : List ClientJoinInfo_t) (steamid : Nat) : List ClientJoinInfo_t :=
  table ++ [{ steamid := steamid, signon_timestamp := 0, addon := 0 }]

/-- Loop of `GetPendingClient(uint64, int &)` from position `i` on. -/
def GetPendingClientFrom (steamid : Nat) :
    List ClientJoinInfo_t → Nat → Option (Nat × ClientJoinInfo_t)
  | [], _ => none
  | c :: cs, i => if c.steamid = steamid then some (i, c) else GetPendingClientFrom steamid cs (i + 1)

/-- `GetPendingClient(uint64 steamid, int &index)` (lines 236-250): position and value of the
first entry with this steamid; `none` is the null pointer. -/
def GetPendingClient (table : List ClientJoinInfo_t) (steamid : Nat) :
    Option (Nat × ClientJoinInfo_t) :=
  GetPendingClientFrom steamid table 0

/-- `GetClientList` (lines 197-209): null when there is no game server, else the engine's
client vector `clients` found behind the pointer. -/
def GetClientList (s : State) (clients : ClientList) : Option ClientList :=
  match s.g_pNetworkGameServer with
  | none => none
  | some _ => some clients

/-- Loop of `GetPendingClient(INetChannel *)` (lines 259-265): the first non-null client on
channel `pNetChan` decides. -/
def GetPendingClientLoop (table : List ClientJoinInfo_t) (pNetChan : Nat) :
    ClientList → Option (Nat × ClientJoinInfo_t)
  | [] => none
  | none :: rest => GetPendingClientLoop table pNetChan rest
  | some pClient :: rest =>
    if pClient.netChannel = pNetChan then GetPendingClient table pClient.steamID
    else GetPendingClientLoop table pNetChan rest

/-- `GetPendingClient(INetChannel *pNetChan)` (lines 252-268). -/
def GetPendingClientNetChan (s : State) (clients : ClientList) (pNetChan : Nat) :
    Option (Nat × ClientJoinInfo_t) :=
  match GetClientList s clients with
  | none => none
  | some pClients => GetPendingClientLoop s.g_ClientsPendingAddon pNetChan pClients

/-! ## The hooks -/

/-- `Hook_StartupServer` (lines 270-274); `server` is what `GetIGameServer()` returns. -/
def Hook_StartupServer (s : State) (server : Option Nat) : State :=
  { s with g_pNetworkGameServer := server, g_ClientsPendingAddon := [] }

/-- `Hook_SendNetMessage` (lines 276-298).  The result is the new state and the calls made to
the original function, in order. -/
def Hook_SendNetMessage (s : State) (clients : ClientList) (pNetChan : Nat) (m_MessageId : Int)
    (pData : CNETMsg_SignonState) (a4 : Int) (now : ℚ) :
    Option (State × List SendNetMessageCall) :=
  if m_MessageId ≠ 7 ∨ s.g_vecExtraAddons.length = 0 then
    some (s, [⟨pNetChan, m_MessageId, pData, a4⟩])
  else
    match GetPendingClientNetChan s clients pNetChan with
    | some (i, pPendingClient) =>
      match Element s.g_vecExtraAddons pPendingClient.addon with
      | none => none
      | some addonName =>
        some ({ s with g_ClientsPendingAddon :=
                  s.g_ClientsPendingAddon.set i { pPendingClient with signon_timestamp := now } },
              [⟨pNetChan, m_MessageId,
                { pData with addons := addonName,
                             signon_state := SignonState.SIGNONSTATE_CHANGELEVEL }, a4⟩])
    | none => some (s, [⟨pNetChan, m_MessageId, pData, a4⟩])

/-- `Hook_HostStateRequest` (lines 300-315): the request the original function is called
with. -/
def Hook_HostStateRequest (s : State) (pRequest : HostStateRequest) : HostStateRequest :=
  if s.g_sExtraAddons = [] then pRequest
  else if pRequest.sAddonString ≠ [] then
    { pRequest with sAddonString := pRequest.sAddonString ++ ',' :: s.g_sExtraAddons }
  else { pRequest with sAddonString := s.g_sExtraAddons }

/-- `MultiAddonManager::Hook_ClientConnect` (lines 317-362).  `pClient` (line 319) is never
used, and the slot, name, network id and reject reason do not influence the result, which is
the new state and the returned value. -/
def Hook_ClientConnect (s : State) (xuid : Nat) (now : ℚ) : Option (State × Bool) :=
  if s.g_vecExtraAddons.length = 0 then some (s, true)
  else
    match GetPendingClient s.g_ClientsPendingAddon xuid with
    | none =>
      match Element s.g_vecExtraAddons 0 with
      | none => none
      | some _ =>
        some ({ s with g_ClientsPendingAddon := AddPendingClient s.g_ClientsPendingAddon xuid },
              true)
    | some (index, pPendingClient) =>
      if doubleSub now pPendingClient.signon_timestamp < s.g_flRejoinTimeout then
        let table := s.g_ClientsPendingAddon.set index
          { pPendingClient with addon := pPendingClient.addon + 1 }
        if pPendingClient.addon + 1 < (s.g_vecExtraAddons.length : Int) then
          match Element s.g_vecExtraAddons (pPendingClient.addon + 1) with
          | none => none
          | some _ => some ({ s with g_ClientsPendingAddon := table }, true)
        else
          match FastRemove table index with
          | none => none
          | some table2 => some ({ s with g_ClientsPendingAddon := table2 }, true)
      else
        match Element s.g_vecExtraAddons pPendingClient.addon with
        | none => none
        | some _ => some (s, true)

/-! ## Traces of operations -/

/-- One event seen by the plugin. -/
inductive Op where
  | extraAddons (args : List CStr)
  | extraAddonsTimeout (value : ℚ)
  | ClientConnect (xuid : Nat) (now : ℚ)
  | SendNetMessage (clients : ClientList) (pNetChan : Nat) (m_MessageId : Int)
      (pData : CNETMsg_SignonState) (a4 : Int) (now : ℚ)
  | StartupServer (server : Option Nat)

/-- Effect of one event on the state; `none` when the source reads out of bounds. -/
def step (s : State) : Op → Option State
  | Op.extraAddons args => some (mm_extra_addons s args)
  | Op.extraAddonsTimeout value => some (mm_extra_addons_timeout s value)
  | Op.ClientConnect xuid now => (Hook_ClientConnect s xuid now).map Prod.fst
  | Op.SendNetMessage clients pNetChan m_MessageId pData a4 now =>
    (Hook_SendNetMessage s clients pNetChan m_MessageId pData a4 now).map Prod.fst
  | Op.StartupServer server => some (Hook_StartupServer s server)

/-- Effect of a sequence of events. -/
def run (s : State) : List Op → Option State
  | [] => some s
  | op :: ops => (step s op).bind fun s2 => run s2 ops


/-- One round of the delivery protocol for a client: the signon message sent to it (client
vector, channel, payload and flag of the call, time of the send) and the time at which it
connects again. -/
structure Round where
  clients : ClientList
  pNetChan : Nat
  pData : CNETMsg_SignonState
  a4 : Int
  tSend : ℚ
  tConnect : ℚ

/-- One round for identity `x`: `Hook_SendNetMessage` on the signon message (id 7), then
`Hook_ClientConnect(x)`.  The result is the state and the calls forwarded to the engine. -/
def runRound (s : State) (x : Nat) (r : Round) : Option (State × List SendNetMessageCall) :=
  match Hook_SendNetMessage s r.clients r.pNetChan 7 r.pData r.a4 r.tSend with
  | none => none
  | some (s1, calls) =>
    match Hook_ClientConnect s1 x r.tConnect with
    | none => none
    | some (s2, _) => some (s2, calls)

/-- Consecutive rounds for identity `x`, with all forwarded calls in order. -/
def runRounds (s : State) (x : Nat) : List Round → Option (State × List SendNetMessageCall)
  | [] => some (s, [])
  | r :: rs =>
    match runRound s x r with
    | none => none
    | some (s1, calls1) =>
      match runRounds s1 x rs with
      | none => none
      | some (s2, calls2) => some (s2, calls1 ++ calls2)

/-! ## Notions used in the statements -/

/-- The event replaces the addon list: `mm_extra_addons` called with an argument. -/
def Op.reconfigures : Op → Bool
  | Op.extraAddons args => decide (2 ≤ args.length)
  | _ => false

/-- The event is a connection attempt of identity `x`. -/
def Op.isConnectOf (x : Nat) : Op → Bool
  | Op.ClientConnect xuid _ => decide (xuid = x)
  | _ => false

/-- Index `i` is valid for an addon list of length `n`. -/
def InRange (n : Nat) (i : Int) : Prop := 0 ≤ i ∧ i < (n : Int)

instance (n : Nat) (i : Int) : Decidable (InRange n i) := by
  unfold InRange; infer_instance

/-- The fields of the state other than the pending table are the same in `s` and `s2`. -/
def SameConfig (s s2 : State) : Prop :=
  s2.g_sExtraAddons = s.g_sExtraAddons ∧ s2.g_vecExtraAddons = s.g_vecExtraAddons ∧
  s2.g_flRejoinTimeout = s.g_flRejoinTimeout ∧ s2.g_pNetworkGameServer = s.g_pNetworkGameServer

/-- The identities present in a pending table, in table order. -/
def steamids (table : List ClientJoinInfo_t) : List Nat :=
  table.map fun c => c.steamid

/-- Every pending entry has a valid addon index, and an empty addon list means an empty
table. -/
def IndexInv (s : State) : Prop :=
  (∀ e ∈ s.g_ClientsPendingAddon, InRange s.g_vecExtraAddons.length e.addon) ∧
  (s.g_vecExtraAddons = [] → s.g_ClientsPendingAddon = [])

/-- The identity a message on channel `pNetChan` is addressed to: the steamid of the first
non-null client of the engine's client vector that owns the channel. -/
def channelOwner (clients : ClientList) (pNetChan : Nat) : Option Nat :=
  match clients with
  | [] => none
  | none :: rest => channelOwner rest pNetChan
  | some pClient :: rest =>
    if pClient.netChannel = pNetChan then some pClient.steamID else channelOwner rest pNetChan

/-- The signon message of round `r` rewritten to carry `addonName`. -/
def rewrittenCall (r : Round) (addonName : CStr) : SendNetMessageCall :=
  { pNetChan := r.pNetChan, m_MessageId := 7,
    pData := { r.pData with addons := addonName,
                            signon_state := SignonState.SIGNONSTATE_CHANGELEVEL },
    a4 := r.a4 }

/-- Spec-side `join(",", list)`: the elements separated by single commas. -/
def joinComma : List CStr → CStr
  | [] => []
  | [a] => a
  | a :: b :: rest => a ++ ',' :: joinComma (b :: rest)

/-- The string has no empty segment: no comma at either end and no two adjacent commas. -/
def NoEmptySegment (str : CStr) : Prop :=
  str.head? ≠ some ',' ∧ str.getLast? ≠ some ',' ∧ ¬ [',', ','] <:+: str

instance (str : CStr) : Decidable (NoEmptySegment str) := by
  unfold NoEmptySegment; infer_instance

/-! ## Concrete data for the worked examples -/

/-- A server configured with `mm_extra_addons a,b` and the default timeout, nobody pending. -/
def exampleState : State :=
  { g_sExtraAddons := ['a', ',', 'b'], g_vecExtraAddons := [['a'], ['b']],
    g_flRejoinTimeout := 10, g_pNetworkGameServer := some 1, g_ClientsPendingAddon := [] }

/-- A signon payload as the engine builds it. -/
def examplePayload : CNETMsg_SignonState :=
  { addons := [], signon_state := SignonState.SIGNONSTATE_CONNECTED, others := 0 }

/-- Clients 5 and 6 connect, client 5 is sent its first addon and reconnects a second later. -/
def exampleOps : List Op :=
  [Op.ClientConnect 5 100, Op.ClientConnect 6 100,
   Op.SendNetMessage [none, some ⟨9, 5⟩] 9 7 examplePayload 0 100, Op.ClientConnect 5 101]

/-- The state `exampleOps` leads to from `exampleState`. -/
def exampleState2 : State :=
  { exampleState with g_ClientsPendingAddon := [⟨5, 100, 1⟩, ⟨6, 0, 0⟩] }

/-- Two rounds of client 5: sent at 100, back at 103; sent at 104, back at 105. -/
def exampleRounds : List Round :=
  [⟨[some ⟨9, 5⟩], 9, examplePayload, 0, 100, 103⟩,
   ⟨[none, some ⟨8, 5⟩], 8, examplePayload, 0, 104, 105⟩]

/-- The scenario of the spec: one addon `100`, timeout 10 s, client 5 was sent the addon at
time 40. -/
def scenarioState : State :=
  { g_sExtraAddons := ['1', '0', '0'], g_vecExtraAddons := [['1', '0', '0']],
    g_flRejoinTimeout := 10, g_pNetworkGameServer := some 1,
    g_ClientsPendingAddon := [⟨5, 40, 0⟩] }

/-- A signon payload that already names addon `100` and the change-level state. -/
def changelevelPayload : CNETMsg_SignonState :=
  { addons := ['1', '0', '0'], signon_state := SignonState.SIGNONSTATE_CHANGELEVEL,
    others := 0 }

/-- The trace against index validity: client 5 receives addon `a`, reconnects in time (index
1), and the list is then replaced by the one-element list `z`. -/
def reconfigOps : List Op :=
  [Op.ClientConnect 5 100, Op.SendNetMessage [some ⟨9, 5⟩] 9 7 examplePayload 0 100,
   Op.ClientConnect 5 101, Op.extraAddons [['m', 'm'], ['z']]]

/-- The state `reconfigOps` leads to from `exampleState`. -/
def reconfigState : State :=
  { exampleState with g_sExtraAddons := ['z'], g_vecExtraAddons := [['z']],
                      g_ClientsPendingAddon := [⟨5, 100, 1⟩] }

/-- A server with timeout 1000 s on which client 5 connected (at 500 s) and no signon message
has been sent to it yet. -/
def unsentState : State :=
  { exampleState with g_flRejoinTimeout := 1000 }

/-- The request of the spec's example: addon field `mapA`. -/
def mapARequest : HostStateRequest :=
  { sAddonString := ['m', 'a', 'p', 'A'], others := 0 }

/-- The double nearest to 0.1. -/
def tenthDouble : ℚ := 3602879701896397 / 36028797018963968

/-- The double nearest to 10.1. -/
def tenAndTenthDouble : ℚ := 5685794529555251 / 562949953421312

/-- The scenario of the spec before anybody connects: one addon `100`, timeout 10 s. -/
def roundingState : State :=
  { scenarioState with g_ClientsPendingAddon := [] }

/-- A round of client 5 whose signon message leaves at 0.1 s and whose reconnection arrives
at 10.1 s. -/
def roundingRound : Round :=
  { clients := [some ⟨9, 5⟩], pNetChan := 9, pData := examplePayload, a4 := 0,
    tSend := tenthDouble, tConnect := tenAndTenthDouble }

/-! ## Rounding to the nearest double is monotone -/

theorem floor_le_roundHalfEven (x : ℚ) : ⌊x⌋ ≤ roundHalfEven x := by
  unfold roundHalfEven
  split_ifs <;> omega

theorem roundHalfEven_le_floor_add_one (x : ℚ) : roundHalfEven x ≤ ⌊x⌋ + 1 := by
  unfold roundHalfEven
  split_ifs <;> omega

theorem roundHalfEven_intCast (n : ℤ) : roundHalfEven (n : ℚ) = n := by
  unfold roundHalfEven
  simp

theorem roundHalfEven_mono {x y : ℚ} (h : x ≤ y) : roundHalfEven x ≤ roundHalfEven y := by
  rcases lt_or_eq_of_le (Int.floor_mono h) with hlt | heq
  · have h1 := roundHalfEven_le_floor_add_one x
    have h2 := floor_le_roundHalfEven y
    omega
  · unfold roundHalfEven
    rw [← heq]
    split_ifs <;> first | omega | (exfalso; linarith)

theorem roundHalfEven_neg (x : ℚ) : roundHalfEven (-x) = - roundHalfEven x := by
  by_cases hx : (⌊x⌋ : ℚ) = x
  · rw [← hx, ← Int.cast_neg, roundHalfEven_intCast, roundHalfEven_intCast]
  · have h1 : (⌊x⌋ : ℚ) < x := lt_of_le_of_ne (Int.floor_le x) hx
    have h2 : x < ⌊x⌋ + 1 := Int.lt_floor_add_one x
    have hf : ⌊-x⌋ = -⌊x⌋ - 1 := by
      rw [Int.floor_eq_iff]
      push_cast
      constructor <;> linarith
    unfold roundHalfEven
    rw [hf]
    push_cast
    split_ifs <;> first | omega | (exfalso; linarith)

theorem two_zpow_pos (k : ℤ) : (0 : ℚ) < (2 : ℚ) ^ k := zpow_pos (by norm_num) k

theorem doubleExponent_neg (q : ℚ) : doubleExponent (-q) = doubleExponent q := by
  unfold doubleExponent
  rw [abs_neg]

theorem roundToDouble_neg (q : ℚ) : roundToDouble (-q) = - roundToDouble q := by
  unfold roundToDouble
  rw [doubleExponent_neg, neg_div, roundHalfEven_neg]
  push_cast
  ring

theorem roundToDouble_nonneg {q : ℚ} (h : 0 ≤ q) : 0 ≤ roundToDouble q := by
  unfold roundToDouble
  have hp := two_zpow_pos (doubleExponent q - 52)
  have hx : ((0 : ℤ) : ℚ) ≤ q / (2 : ℚ) ^ (doubleExponent q - 52) := by
    simpa using div_nonneg h hp.le
  have h0 : (0 : ℤ) ≤ roundHalfEven (q / (2 : ℚ) ^ (doubleExponent q - 52)) := by
    have := roundHalfEven_mono hx
    rwa [roundHalfEven_intCast] at this
  exact mul_nonneg (by exact_mod_cast h0) hp.le

theorem doubleExponent_mono {t q : ℚ} (h0 : 0 < t) (h : t ≤ q) :
    doubleExponent t ≤ doubleExponent q := by
  unfold doubleExponent
  rw [abs_of_pos h0, abs_of_pos (lt_of_lt_of_le h0 h)]
  exact max_le_max (Int.log_mono_right h0 h) (le_refl _)

theorem lt_two_zpow_doubleExponent {q : ℚ} (h0 : 0 < q) :
    q < (2 : ℚ) ^ (doubleExponent q + 1) := by
  have h1 : q < ((2 : ℕ) : ℚ) ^ (Int.log 2 q + 1) := Int.lt_zpow_succ_log_self (by norm_num) q
  have h2 : ((2 : ℕ) : ℚ) ^ (Int.log 2 q + 1) ≤ (2 : ℚ) ^ (doubleExponent q + 1) := by
    push_cast
    apply zpow_le_zpow_right₀ (by norm_num)
    unfold doubleExponent
    rw [abs_of_pos h0]
    have := le_max_left (Int.log 2 q) (-1022)
    omega
  exact lt_of_lt_of_le h1 h2

theorem two_zpow_doubleExponent_le {q : ℚ} (h0 : 0 < q) (hE : -1022 < doubleExponent q) :
    (2 : ℚ) ^ doubleExponent q ≤ q := by
  have hlog : doubleExponent q = Int.log 2 q := by
    unfold doubleExponent at hE ⊢
    rw [abs_of_pos h0] at hE ⊢
    rcases max_cases (Int.log 2 q) (-1022) with ⟨h, _⟩ | ⟨h, _⟩
    · exact h
    · rw [h] at hE; omega
  rw [hlog]
  have := Int.zpow_log_le_self (b := 2) (by norm_num) h0
  simpa using this

theorem roundToDouble_mono_pos {t q : ℚ} (h0 : 0 < t) (h : t ≤ q) :
    roundToDouble t ≤ roundToDouble q := by
  have hq : 0 < q := lt_of_lt_of_le h0 h
  rcases lt_or_eq_of_le (doubleExponent_mono h0 h) with hlt | heq
  · -- different binades: `roundToDouble t ≤ 2 ^ (E t + 1) ≤ 2 ^ E q ≤ roundToDouble q`
    have hpt := two_zpow_pos (doubleExponent t - 52)
    have hpq := two_zpow_pos (doubleExponent q - 52)
    have hEq : -1022 < doubleExponent q := by
      have : -1022 ≤ doubleExponent t := le_max_right _ _
      omega
    have hup : roundToDouble t ≤ (2 : ℚ) ^ (doubleExponent t + 1) := by
      unfold roundToDouble
      have hx : t / (2 : ℚ) ^ (doubleExponent t - 52) ≤ (((2 : ℤ) ^ 53 : ℤ) : ℚ) := by
        rw [div_le_iff₀ hpt]
        have h53 : ((((2 : ℤ) ^ 53 : ℤ) : ℚ)) = (2 : ℚ) ^ (53 : ℤ) := by norm_num
        rw [h53, ← zpow_add₀ (by norm_num : (2 : ℚ) ≠ 0)]
        have : (53 : ℤ) + (doubleExponent t - 52) = doubleExponent t + 1 := by ring
        rw [this]
        exact (lt_two_zpow_doubleExponent h0).le
      have hr := roundHalfEven_mono hx
      rw [roundHalfEven_intCast] at hr
      have hr2 : (roundHalfEven (t / (2 : ℚ) ^ (doubleExponent t - 52)) : ℚ) ≤ (2 : ℚ) ^ (53 : ℤ) := by
        have : ((roundHalfEven (t / (2 : ℚ) ^ (doubleExponent t - 52)) : ℤ) : ℚ) ≤
            (((2 : ℤ) ^ 53 : ℤ) : ℚ) := by exact_mod_cast hr
        have h53 : ((((2 : ℤ) ^ 53 : ℤ) : ℚ)) = (2 : ℚ) ^ (53 : ℤ) := by norm_num
        rwa [h53] at this
      calc (roundHalfEven (t / (2 : ℚ) ^ (doubleExponent t - 52)) : ℚ) *
              (2 : ℚ) ^ (doubleExponent t - 52)
          ≤ (2 : ℚ) ^ (53 : ℤ) * (2 : ℚ) ^ (doubleExponent t - 52) :=
            mul_le_mul_of_nonneg_right hr2 hpt.le
        _ = (2 : ℚ) ^ (doubleExponent t + 1) := by
            rw [← zpow_add₀ (by norm_num : (2 : ℚ) ≠ 0)]
            congr 1; ring
    have hlow : (2 : ℚ) ^ doubleExponent q ≤ roundToDouble q := by
      unfold roundToDouble
      have hx : (((2 : ℤ) ^ 52 : ℤ) : ℚ) ≤ q / (2 : ℚ) ^ (doubleExponent q - 52) := by
        rw [le_div_iff₀ hpq]
        have h52 : ((((2 : ℤ) ^ 52 : ℤ) : ℚ)) = (2 : ℚ) ^ (52 : ℤ) := by norm_num
        rw [h52, ← zpow_add₀ (by norm_num : (2 : ℚ) ≠ 0)]
        have : (52 : ℤ) + (doubleExponent q - 52) = doubleExponent q := by ring
        rw [this]
        exact two_zpow_doubleExponent_le hq hEq
      have hr := roundHalfEven_mono hx
      rw [roundHalfEven_intCast] at hr
      have hr2 : (2 : ℚ) ^ (52 : ℤ) ≤ (roundHalfEven (q / (2 : ℚ) ^ (doubleExponent q - 52)) : ℚ) := by
        have : (((2 : ℤ) ^ 52 : ℤ) : ℚ) ≤
            ((roundHalfEven (q / (2 : ℚ) ^ (doubleExponent q - 52)) : ℤ) : ℚ) := by exact_mod_cast hr
        have h52 : ((((2 : ℤ) ^ 52 : ℤ) : ℚ)) = (2 : ℚ) ^ (52 : ℤ) := by norm_num
        rwa [h52] at this
      calc (2 : ℚ) ^ doubleExponent q
          = (2 : ℚ) ^ (52 : ℤ) * (2 : ℚ) ^ (doubleExponent q - 52) := by
            rw [← zpow_add₀ (by norm_num : (2 : ℚ) ≠ 0)]
            congr 1; ring
        _ ≤ (roundHalfEven (q / (2 : ℚ) ^ (doubleExponent q - 52)) : ℚ) *
              (2 : ℚ) ^ (doubleExponent q - 52) := mul_le_mul_of_nonneg_right hr2 hpq.le
    have hmid : (2 : ℚ) ^ (doubleExponent t + 1) ≤ (2 : ℚ) ^ doubleExponent q :=
      zpow_le_zpow_right₀ (by norm_num) (by omega)
    exact hup.trans (hmid.trans hlow)
  · unfold roundToDouble
    rw [heq]
    have hp := two_zpow_pos (doubleExponent q - 52)
    have hx : t / (2 : ℚ) ^ (doubleExponent q - 52) ≤ q / (2 : ℚ) ^ (doubleExponent q - 52) :=
      div_le_div_of_nonneg_right h hp.le
    have hr := roundHalfEven_mono hx
    exact mul_le_mul_of_nonneg_right (by exact_mod_cast hr) hp.le

/-- Rounding to the nearest double is monotone. -/
theorem roundToDouble_mono {t q : ℚ} (h : t ≤ q) : roundToDouble t ≤ roundToDouble q := by
  rcases lt_or_le 0 t with ht | ht
  · exact roundToDouble_mono_pos ht h
  · rcases le_or_lt 0 q with hq | hq
    · have h1 : roundToDouble t ≤ 0 := by
        have := roundToDouble_nonneg (neg_nonneg.mpr ht)
        rw [roundToDouble_neg] at this
        linarith
      exact h1.trans (roundToDouble_nonneg hq)
    · have := roundToDouble_mono_pos (neg_pos.mpr hq) (neg_le_neg h)
      rw [roundToDouble_neg, roundToDouble_neg] at this
      linarith

theorem le_doubleSub_of_le_sub {t a b : ℚ} (ht : roundToDouble t = t) (h : t ≤ a - b) :
    t ≤ doubleSub a b := by
  have := roundToDouble_mono h
  rw [ht] at this
  exact this

/-! ## Lemmas on the pending table -/

theorem GetPendingClientFrom_some {x : Nat} :
    ∀ (t : List ClientJoinInfo_t) (i j : Nat) (e : ClientJoinInfo_t),
      GetPendingClientFrom x t i = some (j, e) →
      ∃ a b, t = a ++ e :: b ∧ j = i + a.length ∧ e.steamid = x ∧ ∀ c ∈ a, c.steamid ≠ x := by
  intro t
  induction t with
  | nil => intro i j e h; simp [GetPendingClientFrom] at h
  | cons c cs ih =>
    intro i j e h
    unfold GetPendingClientFrom at h
    split at h
    · rename_i hc
      simp only [Option.some.injEq, Prod.mk.injEq] at h
      obtain ⟨rfl, rfl⟩ := h
      exact ⟨[], cs, rfl, by simp, hc, by simp⟩
    · rename_i hc
      obtain ⟨a, b, rfl, rfl, he, ha⟩ := ih (i + 1) j e h
      refine ⟨c :: a, b, rfl, by simp; omega, he, ?_⟩
      intro d hd
      rcases List.mem_cons.mp hd with rfl | hd
      · exact hc
      · exact ha d hd

theorem GetPendingClientFrom_append {x : Nat} (e : ClientJoinInfo_t) (b : List ClientJoinInfo_t)
    (he : e.steamid = x) :
    ∀ (a : List ClientJoinInfo_t) (i : Nat), (∀ c ∈ a, c.steamid ≠ x) →
      GetPendingClientFrom x (a ++ e :: b) i = some (i + a.length, e) := by
  intro a
  induction a with
  | nil => intro i _; simp [GetPendingClientFrom, he]
  | cons c cs ih =>
    intro i h
    have hc : c.steamid ≠ x := h c (List.mem_cons_self _ _)
    have := ih (i + 1) (fun d hd => h d (List.mem_cons_of_mem _ hd))
    simp [GetPendingClientFrom, hc, this]; omega

theorem GetPendingClientFrom_none {x : Nat} :
    ∀ (t : List ClientJoinInfo_t) (i : Nat),
      GetPendingClientFrom x t i = none ↔ ∀ c ∈ t, c.steamid ≠ x := by
  intro t
  induction t with
  | nil => intro i; simp [GetPendingClientFrom]
  | cons c cs ih =>
    intro i
    unfold GetPendingClientFrom
    by_cases hc : c.steamid = x
    · simp [hc]
    · simp [hc, ih (i + 1)]

theorem GetPendingClient_some {t : List ClientJoinInfo_t} {x j : Nat} {e : ClientJoinInfo_t}
    (h : GetPendingClient t x = some (j, e)) :
    ∃ a b, t = a ++ e :: b ∧ j = a.length ∧ e.steamid = x ∧ ∀ c ∈ a, c.steamid ≠ x := by
  obtain ⟨a, b, h1, h2, h3, h4⟩ := GetPendingClientFrom_some t 0 j e h
  exact ⟨a, b, h1, by omega, h3, h4⟩

theorem GetPendingClient_append {x : Nat} (a b : List ClientJoinInfo_t) (e : ClientJoinInfo_t)
    (he : e.steamid = x) (ha : ∀ c ∈ a, c.steamid ≠ x) :
    GetPendingClient (a ++ e :: b) x = some (a.length, e) := by
  have := GetPendingClientFrom_append e b he a 0 ha
  simpa [GetPendingClient] using this

theorem GetPendingClient_none {t : List ClientJoinInfo_t} {x : Nat} :
    GetPendingClient t x = none ↔ ∀ c ∈ t, c.steamid ≠ x :=
  GetPendingClientFrom_none t 0

theorem set_append_cons {α : Type} (a b : List α) (e f : α) :
    (a ++ e :: b).set a.length f = a ++ f :: b := by
  induction a with
  | nil => rfl
  | cons c cs ih => simp [ih]

theorem FastRemove_append_cons {α : Type} (a b : List α) (e : α) :
    ∃ r, FastRemove (a ++ e :: b) a.length = some r ∧ r.Perm (a ++ b) := by
  rcases List.eq_nil_or_concat b with rfl | ⟨b2, l, rfl⟩
  · refine ⟨a, ?_, by simp⟩
    simp [FastRemove]
  · refine ⟨a ++ l :: b2, ?_, ?_⟩
    · rw [List.concat_eq_append]
      have h1 : (a ++ e :: (b2 ++ [l])) = (a ++ e :: b2) ++ [l] := by simp
      have h2 : (a ++ e :: (b2 ++ [l])).getLast? = some l := by
        rw [h1, List.getLast?_append]; simp
      have h3 : a ++ l :: (b2 ++ [l]) = (a ++ l :: b2) ++ [l] := by simp
      unfold FastRemove
      rw [h2]
      simp only [set_append_cons]
      rw [h3, List.dropLast_concat]
      have h4 : a.length < (a ++ e :: (b2 ++ [l])).length := by simp
      have h5 : a.length ≠ (a ++ e :: (b2 ++ [l])).length - 1 := by simp
      simp only [h4, h5, if_true, ne_eq, not_false_eq_true]
    · rw [List.concat_eq_append]
      exact List.Perm.append_left a (List.perm_append_singleton l b2).symm

theorem Element_isSome {α : Type} (v : List α) (i : Int) (h : InRange v.length i) :
    ∃ a, Element v i = some a := by
  obtain ⟨h0, h1⟩ := h
  have h2 : i.toNat < v.length := by omega
  refine ⟨v[i.toNat], ?_⟩
  unfold Element
  rw [if_neg (by omega)]
  exact List.getElem?_eq_getElem h2

theorem Element_some_inRange {α : Type} (v : List α) (i : Int) (a : α)
    (h : Element v i = some a) : InRange v.length i := by
  unfold Element at h
  split at h
  · exact absurd h (by simp)
  · rename_i h0
    have := (List.getElem?_eq_some_iff.mp h).1
    constructor <;> omega

/-! ## What the hooks do to the state -/

theorem Hook_ClientConnect_spec {s s2 : State} {x : Nat} {now : ℚ} {r : Bool}
    (h : Hook_ClientConnect s x now = some (s2, r)) :
    r = true ∧ SameConfig s s2 ∧
    ((s2.g_ClientsPendingAddon = s.g_ClientsPendingAddon ∧
        (s.g_vecExtraAddons = [] ∨
         ∃ i e, GetPendingClient s.g_ClientsPendingAddon x = some (i, e) ∧
           ¬ doubleSub now e.signon_timestamp < s.g_flRejoinTimeout ∧
           InRange s.g_vecExtraAddons.length e.addon)) ∨
     ((∀ c ∈ s.g_ClientsPendingAddon, c.steamid ≠ x) ∧ s.g_vecExtraAddons ≠ [] ∧
        s2.g_ClientsPendingAddon = s.g_ClientsPendingAddon ++ [⟨x, 0, 0⟩]) ∨
     (∃ a e b, s.g_ClientsPendingAddon = a ++ e :: b ∧ e.steamid = x ∧
        (∀ c ∈ a, c.steamid ≠ x) ∧ doubleSub now e.signon_timestamp < s.g_flRejoinTimeout ∧
        e.addon + 1 < (s.g_vecExtraAddons.length : Int) ∧ InRange s.g_vecExtraAddons.length (e.addon + 1) ∧
        s2.g_ClientsPendingAddon = a ++ { e with addon := e.addon + 1 } :: b) ∨
     (∃ a e b, s.g_ClientsPendingAddon = a ++ e :: b ∧ e.steamid = x ∧
        (∀ c ∈ a, c.steamid ≠ x) ∧ doubleSub now e.signon_timestamp < s.g_flRejoinTimeout ∧
        ¬ e.addon + 1 < (s.g_vecExtraAddons.length : Int) ∧
        s2.g_ClientsPendingAddon.Perm (a ++ b))) := by
  unfold Hook_ClientConnect at h
  split at h
  · rename_i hlen
    simp only [Option.some.injEq, Prod.mk.injEq] at h
    obtain ⟨rfl, rfl⟩ := h
    exact ⟨rfl, ⟨rfl, rfl, rfl, rfl⟩, Or.inl ⟨rfl, Or.inl (List.length_eq_zero.mp hlen)⟩⟩
  · rename_i hne
    split at h
    · rename_i hnone
      split at h
      · exact absurd h (by simp)
      · simp only [Option.some.injEq, Prod.mk.injEq] at h
        obtain ⟨rfl, rfl⟩ := h
        refine ⟨rfl, ⟨rfl, rfl, rfl, rfl⟩, Or.inr (Or.inl ⟨GetPendingClient_none.mp hnone, ?_, rfl⟩)⟩
        intro h0; exact hne (by simp [h0])
    · rename_i index e hsome
      obtain ⟨a, b, hab, hidx, hex, ha⟩ := GetPendingClient_some hsome
      subst hidx
      split at h
      · rename_i hrecent
        simp only at h
        split at h
        · rename_i hlt
          split at h
          · exact absurd h (by simp)
          · rename_i nm hel
            simp only [Option.some.injEq, Prod.mk.injEq] at h
            obtain ⟨rfl, rfl⟩ := h
            refine ⟨rfl, ⟨rfl, rfl, rfl, rfl⟩, Or.inr (Or.inr (Or.inl
              ⟨a, e, b, hab, hex, ha, hrecent, hlt, Element_some_inRange _ _ _ hel, ?_⟩))⟩
            simp only [hab, set_append_cons]
        · rename_i hge
          split at h
          · exact absurd h (by simp)
          · rename_i t2 hrem
            simp only [Option.some.injEq, Prod.mk.injEq] at h
            obtain ⟨rfl, rfl⟩ := h
            refine ⟨rfl, ⟨rfl, rfl, rfl, rfl⟩, Or.inr (Or.inr (Or.inr
              ⟨a, e, b, hab, hex, ha, hrecent, hge, ?_⟩))⟩
            rw [hab, set_append_cons] at hrem
            obtain ⟨r2, hr2, hperm⟩ := FastRemove_append_cons a b { e with addon := e.addon + 1 }
            rw [hr2] at hrem
            simp only [Option.some.injEq] at hrem
            subst hrem
            exact hperm
      · rename_i hstale
        split at h
        · exact absurd h (by simp)
        · rename_i nm hel
          simp only [Option.some.injEq, Prod.mk.injEq] at h
          obtain ⟨rfl, rfl⟩ := h
          exact ⟨rfl, ⟨rfl, rfl, rfl, rfl⟩, Or.inl ⟨rfl, Or.inr
            ⟨_, e, hsome, hstale, Element_some_inRange _ _ _ hel⟩⟩⟩

/-- The connect hook is defined whenever the entry it finds has a valid addon index. -/
theorem Hook_ClientConnect_defined (s : State) (x : Nat) (now : ℚ)
    (h : ∀ i e, GetPendingClient s.g_ClientsPendingAddon x = some (i, e) →
      InRange s.g_vecExtraAddons.length e.addon) :
    ∃ s2, Hook_ClientConnect s x now = some (s2, true) := by
  unfold Hook_ClientConnect
  split
  · exact ⟨s, rfl⟩
  · rename_i hne
    split
    · obtain ⟨nm, hnm⟩ := Element_isSome s.g_vecExtraAddons 0 ⟨le_refl _, by omega⟩
      rw [hnm]; exact ⟨_, rfl⟩
    · rename_i index e hsome
      obtain ⟨a, b, hab, hidx, hex, ha⟩ := GetPendingClient_some hsome
      subst hidx
      have hr := h _ _ hsome
      split
      · simp only
        split
        · rename_i hlt
          obtain ⟨nm, hnm⟩ := Element_isSome s.g_vecExtraAddons (e.addon + 1) ⟨by have := hr.1; omega, hlt⟩
          rw [hnm]; exact ⟨_, rfl⟩
        · rw [hab, set_append_cons]
          obtain ⟨r2, hr2, _⟩ := FastRemove_append_cons a b { e with addon := e.addon + 1 }
          rw [hr2]; exact ⟨_, rfl⟩
      · obtain ⟨nm, hnm⟩ := Element_isSome s.g_vecExtraAddons e.addon hr
        rw [hnm]; exact ⟨_, rfl⟩

theorem GetPendingClientLoop_some {table : List ClientJoinInfo_t} {pNetChan : Nat} :
    ∀ (clients : ClientList) (i : Nat) (e : ClientJoinInfo_t),
      GetPendingClientLoop table pNetChan clients = some (i, e) →
      GetPendingClient table e.steamid = some (i, e) := by
  intro clients
  induction clients with
  | nil => intro i e h; simp [GetPendingClientLoop] at h
  | cons c cs ih =>
    intro i e h
    cases c with
    | none => exact ih i e (by simpa [GetPendingClientLoop] using h)
    | some pc =>
      unfold GetPendingClientLoop at h
      split at h
      · obtain ⟨a, b, _, _, hex, _⟩ := GetPendingClient_some h
        rw [hex]; exact h
      · exact ih i e h

theorem GetPendingClientNetChan_some {s : State} {clients : ClientList} {pNetChan i : Nat}
    {e : ClientJoinInfo_t} (h : GetPendingClientNetChan s clients pNetChan = some (i, e)) :
    GetPendingClient s.g_ClientsPendingAddon e.steamid = some (i, e) := by
  unfold GetPendingClientNetChan at h
  split at h
  · exact absurd h (by simp)
  · exact GetPendingClientLoop_some _ i e h

theorem Hook_SendNetMessage_spec {s s2 : State} {clients : ClientList} {pNetChan : Nat}
    {m_MessageId : Int} {pData : CNETMsg_SignonState} {a4 : Int} {now : ℚ}
    {calls : List SendNetMessageCall}
    (h : Hook_SendNetMessage s clients pNetChan m_MessageId pData a4 now = some (s2, calls)) :
    SameConfig s s2 ∧
    (s2.g_ClientsPendingAddon = s.g_ClientsPendingAddon ∨
     ∃ a e b, s.g_ClientsPendingAddon = a ++ e :: b ∧ InRange s.g_vecExtraAddons.length e.addon ∧
       s2.g_ClientsPendingAddon = a ++ { e with signon_timestamp := now } :: b) := by
  unfold Hook_SendNetMessage at h
  split at h
  · simp only [Option.some.injEq, Prod.mk.injEq] at h
    obtain ⟨rfl, _⟩ := h
    exact ⟨⟨rfl, rfl, rfl, rfl⟩, Or.inl rfl⟩
  · split at h
    · rename_i i e hsome
      obtain ⟨a, b, hab, hidx, _, _⟩ := GetPendingClient_some (GetPendingClientNetChan_some hsome)
      subst hidx
      split at h
      · exact absurd h (by simp)
      · rename_i nm hel
        simp only [Option.some.injEq, Prod.mk.injEq] at h
        obtain ⟨rfl, _⟩ := h
        refine ⟨⟨rfl, rfl, rfl, rfl⟩, Or.inr ⟨a, e, b, hab, Element_some_inRange _ _ _ hel, ?_⟩⟩
        simp only [hab, set_append_cons]
    · simp only [Option.some.injEq, Prod.mk.injEq] at h
      obtain ⟨rfl, _⟩ := h
      exact ⟨⟨rfl, rfl, rfl, rfl⟩, Or.inl rfl⟩

/-- The send hook is defined whenever every pending entry has a valid addon index. -/
theorem Hook_SendNetMessage_defined (s : State) (clients : ClientList) (pNetChan : Nat)
    (m_MessageId : Int) (pData : CNETMsg_SignonState) (a4 : Int) (now : ℚ)
    (h : ∀ e ∈ s.g_ClientsPendingAddon, InRange s.g_vecExtraAddons.length e.addon) :
    ∃ r, Hook_SendNetMessage s clients pNetChan m_MessageId pData a4 now = some r := by
  unfold Hook_SendNetMessage
  split
  · exact ⟨_, rfl⟩
  · split
    · rename_i i e hsome
      obtain ⟨a, b, hab, _, _, _⟩ := GetPendingClient_some (GetPendingClientNetChan_some hsome)
      obtain ⟨nm, hnm⟩ := Element_isSome s.g_vecExtraAddons e.addon (h e (by rw [hab]; simp))
      rw [hnm]; exact ⟨_, rfl⟩
    · exact ⟨_, rfl⟩

/-! ## Invariants along traces -/

theorem mm_extra_addons_short (s : State) (args : List CStr) (h : ¬ 2 ≤ args.length) :
    mm_extra_addons s args = s := by
  match args, h with
  | [], _ => rfl
  | [_], _ => rfl
  | _ :: _ :: _, h => exact absurd (by simp) h

theorem mm_extra_addons_table (s : State) (args : List CStr) :
    (mm_extra_addons s args).g_ClientsPendingAddon = s.g_ClientsPendingAddon := by
  unfold mm_extra_addons
  split <;> rfl

theorem step_nodup {s s2 : State} {op : Op} (h : step s op = some s2)
    (hn : (steamids s.g_ClientsPendingAddon).Nodup) :
    (steamids s2.g_ClientsPendingAddon).Nodup := by
  cases op with
  | extraAddons args =>
    simp only [step, Option.some.injEq] at h
    subst h
    rw [mm_extra_addons_table]; exact hn
  | extraAddonsTimeout value =>
    simp only [step, Option.some.injEq] at h
    subst h
    exact hn
  | StartupServer server =>
    simp only [step, Option.some.injEq] at h
    subst h
    simp [Hook_StartupServer, steamids]
  | ClientConnect xuid now =>
    simp only [step, Option.map_eq_some', Prod.exists, exists_and_right, exists_eq_right] at h
    obtain ⟨r, hr⟩ := h
    obtain ⟨_, _, ⟨hc, _⟩ | ⟨hnew, _, hc⟩ | ⟨a, e, b, hab, _, _, _, _, _, hc⟩ | ⟨a, e, b, hab, _, _, _, _, hc⟩⟩ :=
      Hook_ClientConnect_spec hr
    · rw [hc]; exact hn
    · rw [hc]
      simp only [steamids, List.map_append, List.map_cons, List.map_nil]
      refine List.Nodup.append hn (List.nodup_singleton _) ?_
      intro y hy1 hy2
      simp only [List.mem_singleton] at hy2
      subst hy2
      obtain ⟨c, hc1, hc2⟩ := List.mem_map.mp hy1
      exact hnew c hc1 hc2
    · rw [hc]; rw [hab] at hn; simpa [steamids] using hn
    · have h1 : (steamids s2.g_ClientsPendingAddon).Perm (steamids (a ++ b)) := hc.map _
      rw [h1.nodup_iff]
      rw [hab] at hn
      refine List.Nodup.sublist ?_ hn
      simp only [steamids, List.map_append, List.map_cons]
      exact List.Sublist.append_left (List.sublist_cons_self _ _) _
  | SendNetMessage clients pNetChan m_MessageId pData a4 now =>
    simp only [step, Option.map_eq_some', Prod.exists, exists_and_right, exists_eq_right] at h
    obtain ⟨calls, hr⟩ := h
    obtain ⟨_, hc | ⟨a, e, b, hab, _, hc⟩⟩ := Hook_SendNetMessage_spec hr
    · rw [hc]; exact hn
    · rw [hc]; rw [hab] at hn; simpa [steamids] using hn

theorem run_nodup : ∀ (ops : List Op) (s s2 : State), run s ops = some s2 →
    (steamids s.g_ClientsPendingAddon).Nodup → (steamids s2.g_ClientsPendingAddon).Nodup := by
  intro ops
  induction ops with
  | nil =>
    intro s s2 h hn
    simp only [run, Option.some.injEq] at h
    subst h; exact hn
  | cons op ops ih =>
    intro s s2 h hn
    simp only [run, Option.bind_eq_some] at h
    obtain ⟨s1, h1, h2⟩ := h
    exact ih s1 s2 h2 (step_nodup h1 hn)

theorem step_indexInv {s : State} {op : Op} (hop : op.reconfigures = false) (hi : IndexInv s) :
    ∃ s2, step s op = some s2 ∧ s2.g_vecExtraAddons = s.g_vecExtraAddons ∧ IndexInv s2 := by
  cases op with
  | extraAddons args =>
    have hs : mm_extra_addons s args = s :=
      mm_extra_addons_short s args (by simpa [Op.reconfigures] using hop)
    exact ⟨s, by simp [step, hs], rfl, hi⟩
  | extraAddonsTimeout value =>
    exact ⟨_, rfl, rfl, hi⟩
  | StartupServer server =>
    refine ⟨_, rfl, rfl, ?_, fun _ => rfl⟩
    intro e he
    simp [Hook_StartupServer] at he
  | ClientConnect xuid now =>
    obtain ⟨s2, h2⟩ := Hook_ClientConnect_defined s xuid now (by
      intro i e hsome
      obtain ⟨a, b, hab, _, _, _⟩ := GetPendingClient_some hsome
      exact hi.1 e (by rw [hab]; simp))
    refine ⟨s2, by simp [step, h2], ?_⟩
    obtain ⟨_, ⟨_, hv, _, _⟩, ⟨hc, _⟩ | ⟨_, hne, hc⟩ | ⟨a, e, b, hab, _, _, _, _, hr, hc⟩ |
      ⟨a, e, b, hab, _, _, _, _, hc⟩⟩ := Hook_ClientConnect_spec h2
    · exact ⟨hv, by rw [hc, hv]; exact hi.1, by rw [hc, hv]; exact hi.2⟩
    · refine ⟨hv, ?_, fun h0 => absurd (hv ▸ h0) hne⟩
      rw [hc, hv]
      intro e he
      rcases List.mem_append.mp he with he | he
      · exact hi.1 e he
      · simp only [List.mem_singleton] at he
        subst he
        have : 0 < s.g_vecExtraAddons.length := List.length_pos.mpr hne
        exact ⟨le_refl _, by simp only; omega⟩
    · refine ⟨hv, ?_, ?_⟩
      · rw [hc, hv]
        intro c hcm
        rcases List.mem_append.mp hcm with hcm | hcm
        · exact hi.1 c (by rw [hab]; simp [hcm])
        · rcases List.mem_cons.mp hcm with rfl | hcm
          · exact hr
          · exact hi.1 c (by rw [hab]; simp [hcm])
      · intro h0
        rw [hv] at h0
        have := hi.2 h0
        rw [hab] at this
        simp at this
    · refine ⟨hv, ?_, ?_⟩
      · rw [hv]
        intro c hcm
        have hcm2 := hc.mem_iff.mp hcm
        refine hi.1 c ?_
        rw [hab]
        rcases List.mem_append.mp hcm2 with h | h <;> simp [h]
      · intro h0
        rw [hv] at h0
        have := hi.2 h0
        rw [hab] at this
        simp at this
  | SendNetMessage clients pNetChan m_MessageId pData a4 now =>
    obtain ⟨⟨s2, calls⟩, h2⟩ := Hook_SendNetMessage_defined s clients pNetChan m_MessageId pData a4 now hi.1
    refine ⟨s2, by simp [step, h2], ?_⟩
    obtain ⟨⟨_, hv, _, _⟩, hc | ⟨a, e, b, hab, hr, hc⟩⟩ := Hook_SendNetMessage_spec h2
    · exact ⟨hv, by rw [hc, hv]; exact hi.1, by rw [hc, hv]; exact hi.2⟩
    · refine ⟨hv, ?_, ?_⟩
      · rw [hc, hv]
        intro c hcm
        rcases List.mem_append.mp hcm with hcm | hcm
        · exact hi.1 c (by rw [hab]; simp [hcm])
        · rcases List.mem_cons.mp hcm with rfl | hcm
          · exact hr
          · exact hi.1 c (by rw [hab]; simp [hcm])
      · intro h0
        rw [hv] at h0
        have := hi.2 h0
        rw [hab] at this
        simp at this

theorem run_indexInv : ∀ (ops : List Op) (s : State), (∀ op ∈ ops, op.reconfigures = false) →
    IndexInv s → ∃ s2, run s ops = some s2 ∧ s2.g_vecExtraAddons = s.g_vecExtraAddons ∧
      IndexInv s2 := by
  intro ops
  induction ops with
  | nil => intro s _ hi; exact ⟨s, rfl, rfl, hi⟩
  | cons op ops ih =>
    intro s hops hi
    obtain ⟨s1, h1, hv1, hi1⟩ := step_indexInv (hops op (List.mem_cons_self _ _)) hi
    obtain ⟨s2, h2, hv2, hi2⟩ := ih s1 (fun o ho => hops o (List.mem_cons_of_mem _ ho)) hi1
    exact ⟨s2, by simp [run, h1, h2], by rw [hv2, hv1], hi2⟩

theorem step_no_entry {s s2 : State} {op : Op} {x : Nat} (hop : op.isConnectOf x = false)
    (h : step s op = some s2) (hx : ∀ c ∈ s.g_ClientsPendingAddon, c.steamid ≠ x) :
    ∀ c ∈ s2.g_ClientsPendingAddon, c.steamid ≠ x := by
  cases op with
  | extraAddons args =>
    simp only [step, Option.some.injEq] at h
    subst h
    rw [mm_extra_addons_table]; exact hx
  | extraAddonsTimeout value =>
    simp only [step, Option.some.injEq] at h
    subst h
    exact hx
  | StartupServer server =>
    simp only [step, Option.some.injEq] at h
    subst h
    intro c hc
    simp [Hook_StartupServer] at hc
  | ClientConnect xuid now =>
    have hne : xuid ≠ x := by simpa [Op.isConnectOf] using hop
    simp only [step, Option.map_eq_some', Prod.exists, exists_and_right, exists_eq_right] at h
    obtain ⟨r, hr⟩ := h
    obtain ⟨_, _, ⟨hc, _⟩ | ⟨_, _, hc⟩ | ⟨a, e, b, hab, hex, _, _, _, _, hc⟩ | ⟨a, e, b, hab, _, _, _, _, hc⟩⟩ :=
      Hook_ClientConnect_spec hr
    · rw [hc]; exact hx
    · rw [hc]
      intro c hcm
      rcases List.mem_append.mp hcm with hcm | hcm
      · exact hx c hcm
      · simp only [List.mem_singleton] at hcm
        subst hcm
        exact hne
    · rw [hc]
      intro c hcm
      rcases List.mem_append.mp hcm with hcm | hcm
      · exact hx c (by rw [hab]; simp [hcm])
      · rcases List.mem_cons.mp hcm with rfl | hcm
        · simp only; rw [hex]; exact hne
        · exact hx c (by rw [hab]; simp [hcm])
    · intro c hcm
      have hcm2 := hc.mem_iff.mp hcm
      refine hx c ?_
      rw [hab]
      rcases List.mem_append.mp hcm2 with h | h <;> simp [h]
  | SendNetMessage clients pNetChan m_MessageId pData a4 now =>
    simp only [step, Option.map_eq_some', Prod.exists, exists_and_right, exists_eq_right] at h
    obtain ⟨calls, hr⟩ := h
    obtain ⟨_, hc | ⟨a, e, b, hab, _, hc⟩⟩ := Hook_SendNetMessage_spec hr
    · rw [hc]; exact hx
    · rw [hc]
      intro c hcm
      rcases List.mem_append.mp hcm with hcm | hcm
      · exact hx c (by rw [hab]; simp [hcm])
      · rcases List.mem_cons.mp hcm with rfl | hcm
        · exact hx e (by rw [hab]; simp)
        · exact hx c (by rw [hab]; simp [hcm])

theorem run_no_entry {x : Nat} : ∀ (ops : List Op) (s s2 : State),
    (∀ op ∈ ops, op.isConnectOf x = false) → run s ops = some s2 →
    (∀ c ∈ s.g_ClientsPendingAddon, c.steamid ≠ x) →
    ∀ c ∈ s2.g_ClientsPendingAddon, c.steamid ≠ x := by
  intro ops
  induction ops with
  | nil =>
    intro s s2 _ h hx
    simp only [run, Option.some.injEq] at h
    subst h; exact hx
  | cons op ops ih =>
    intro s s2 hops h hx
    simp only [run, Option.bind_eq_some] at h
    obtain ⟨s1, h1, h2⟩ := h
    exact ih s1 s2 (fun o ho => hops o (List.mem_cons_of_mem _ ho)) h2
      (step_no_entry (hops op (List.mem_cons_self _ _)) h1 hx)

theorem filter_ne_of_no_entry (t : List ClientJoinInfo_t) (x : Nat)
    (h : ∀ c ∈ t, c.steamid ≠ x) : t.filter (fun c => decide (c.steamid ≠ x)) = t := by
  rw [List.filter_eq_self]
  intro c hc
  simpa using h c hc

theorem filter_eq_of_no_entry (t : List ClientJoinInfo_t) (x : Nat)
    (h : ∀ c ∈ t, c.steamid ≠ x) : t.filter (fun c => decide (c.steamid = x)) = [] := by
  rw [List.filter_eq_nil_iff]
  intro c hc
  simpa using h c hc

theorem entry_unique {t : List ClientJoinInfo_t} (hn : (steamids t).Nodup)
    {c d : ClientJoinInfo_t} (hc : c ∈ t) (hd : d ∈ t) (h : c.steamid = d.steamid) : c = d :=
  List.inj_on_of_nodup_map hn hc hd h

theorem nodup_split {a b : List ClientJoinInfo_t} {e : ClientJoinInfo_t}
    (hn : (steamids (a ++ e :: b)).Nodup) :
    (∀ c ∈ a, c.steamid ≠ e.steamid) ∧ (∀ c ∈ b, c.steamid ≠ e.steamid) := by
  simp only [steamids, List.map_append, List.map_cons] at hn
  have h1 := List.nodup_middle.mp hn
  have h2 := (List.nodup_cons.mp h1).1
  constructor
  · intro c hc heq
    exact h2 (List.mem_append_left _ (List.mem_map.mpr ⟨c, hc, heq⟩))
  · intro c hc heq
    exact h2 (List.mem_append_right _ (List.mem_map.mpr ⟨c, hc, heq⟩))

theorem GetPendingClientLoop_eq (table : List ClientJoinInfo_t) (pNetChan : Nat) :
    ∀ clients : ClientList, GetPendingClientLoop table pNetChan clients =
      (channelOwner clients pNetChan).bind (GetPendingClient table) := by
  intro clients
  induction clients with
  | nil => rfl
  | cons c cs ih =>
    cases c with
    | none => simpa [GetPendingClientLoop, channelOwner] using ih
    | some pc =>
      unfold GetPendingClientLoop channelOwner
      split
      · rfl
      · exact ih

theorem GetPendingClientNetChan_owner (s : State) (clients : ClientList) (pNetChan x : Nat)
    (hs : s.g_pNetworkGameServer ≠ none) (hx : channelOwner clients pNetChan = some x) :
    GetPendingClientNetChan s clients pNetChan = GetPendingClient s.g_ClientsPendingAddon x := by
  unfold GetPendingClientNetChan GetClientList
  cases hp : s.g_pNetworkGameServer with
  | none => exact absurd hp hs
  | some p => simp only [GetPendingClientLoop_eq, hx, Option.some_bind]

theorem Element_eq {α : Type} (v : List α) (i : Int) (h0 : 0 ≤ i) :
    Element v i = v[i.toNat]? := by
  unfold Element
  rw [if_neg (by omega)]

/-- The rewriting branch of `Hook_SendNetMessage`, for an entry with a valid addon index. -/
theorem Hook_SendNetMessage_rewrite (s : State) (clients : ClientList) (pNetChan : Nat)
    (pData : CNETMsg_SignonState) (a4 : Int) (now : ℚ) (i : Nat) (e : ClientJoinInfo_t)
    (hne : s.g_vecExtraAddons ≠ [])
    (hsome : GetPendingClientNetChan s clients pNetChan = some (i, e))
    (h0 : 0 ≤ e.addon) (h1 : e.addon < (s.g_vecExtraAddons.length : Int)) :
    ∃ addonName, s.g_vecExtraAddons[e.addon.toNat]? = some addonName ∧
      Hook_SendNetMessage s clients pNetChan 7 pData a4 now =
        some ({ s with g_ClientsPendingAddon :=
                  s.g_ClientsPendingAddon.set i { e with signon_timestamp := now } },
              [⟨pNetChan, 7,
                { pData with addons := addonName,
                             signon_state := SignonState.SIGNONSTATE_CHANGELEVEL }, a4⟩]) := by
  obtain ⟨nm, hnm⟩ := Element_isSome s.g_vecExtraAddons e.addon ⟨h0, h1⟩
  refine ⟨nm, by rw [← Element_eq _ _ h0]; exact hnm, ?_⟩
  have hlen : ¬ s.g_vecExtraAddons.length = 0 := fun h => hne (List.length_eq_zero.mp h)
  unfold Hook_SendNetMessage
  rw [if_neg (by simp [hlen]), hsome]
  simp only [hnm]

/-! ## Splitting and joining the configuration string -/

theorem V_SplitStringAux_ne_nil (rest : CStr) : ∀ cur : CStr, cur ≠ [] →
    V_SplitStringAux cur rest ≠ [] := by
  induction rest with
  | nil => intro cur h; simp [V_SplitStringAux, h]
  | cons c cs ih =>
    intro cur h
    unfold V_SplitStringAux
    by_cases hc : c = ','
    · simp [hc, h]
    · simp only [hc, if_false]
      exact ih (cur ++ [c]) (by simp)

theorem joinComma_cons (a : CStr) (l : List CStr) (h : l ≠ []) :
    joinComma (a :: l) = a ++ ',' :: joinComma l := by
  cases l with
  | nil => exact absurd rfl h
  | cons b rest => rfl

theorem joinComma_V_SplitStringAux (rest : CStr) : ∀ cur : CStr,
    rest.getLast? ≠ some ',' → ¬ [',', ','] <:+: rest →
    (cur = [] → rest.head? ≠ some ',') →
    joinComma (V_SplitStringAux cur rest) = cur ++ rest := by
  induction rest with
  | nil =>
    intro cur _ _ _
    unfold V_SplitStringAux
    by_cases h : cur = []
    · simp [h, joinComma]
    · simp [h, joinComma]
  | cons c cs ih =>
    intro cur hlast hinf hhead
    have hinf2 : ¬ [',', ','] <:+: cs := fun h => hinf (List.infix_cons h)
    have hlast2 : cs.getLast? ≠ some ',' := by
      cases cs with
      | nil => simp
      | cons d ds => simpa [List.getLast?_cons_cons] using hlast
    unfold V_SplitStringAux
    by_cases hc : c = ','
    · subst hc
      have hcur : cur ≠ [] := fun h => hhead h rfl
      have hcs : cs.head? ≠ some ',' := by
        intro h
        cases cs with
        | nil => simp at h
        | cons d ds =>
          simp only [List.head?_cons, Option.some.injEq] at h
          subst h
          exact hinf ⟨[], ds, rfl⟩
      have hcsne : cs ≠ [] := by
        intro h; subst h; simp at hlast
      have hne : V_SplitStringAux [] cs ≠ [] := by
        cases cs with
        | nil => exact absurd rfl hcsne
        | cons d ds =>
          have hd : d ≠ ',' := by
            intro h; exact hcs (by simp [h])
          unfold V_SplitStringAux
          simp only [hd, if_false]
          exact V_SplitStringAux_ne_nil ds _ (by simp)
      simp only [if_true, hcur, if_false]
      rw [joinComma_cons _ _ hne, ih [] hlast2 hinf2 (fun _ => hcs)]
      simp
    · simp only [hc, if_false]
      rw [ih (cur ++ [c]) hlast2 hinf2 (fun h => absurd h (by simp))]
      simp

theorem V_SplitString_join (str : CStr) (h : NoEmptySegment str) :
    (V_SplitString str = [] ↔ str = []) ∧ joinComma (V_SplitString str) = str := by
  obtain ⟨hhead, hlast, hinf⟩ := h
  constructor
  · constructor
    · intro hnil
      cases str with
      | nil => rfl
      | cons c cs =>
        exfalso
        have hc : c ≠ ',' := by
          intro h; exact hhead (by simp [h])
        unfold V_SplitString V_SplitStringAux at hnil
        simp only [hc, if_false] at hnil
        exact V_SplitStringAux_ne_nil cs _ (by simp) hnil
    · intro h; subst h; rfl
  · have := joinComma_V_SplitStringAux str [] hlast hinf (fun _ => hhead)
    simpa [V_SplitString] using this

theorem V_SplitStringAux_eq_splitOn (rest : CStr) : ∀ cur : CStr,
    V_SplitStringAux cur rest =
      ((rest.splitOn ',').modifyHead (fun seg => cur ++ seg)).filter
        (fun seg => decide (seg ≠ [])) := by
  induction rest with
  | nil =>
    intro cur
    unfold V_SplitStringAux
    by_cases h : cur = []
    · simp [h, List.splitOn, List.splitOnP_nil]
    · simp [h, List.splitOn, List.splitOnP_nil]
  | cons c cs ih =>
    intro cur
    unfold V_SplitStringAux
    rw [List.splitOn, List.splitOnP_cons]
    by_cases hc : c = ','
    · subst hc
      have h0 := ih []
      simp only [List.nil_append] at h0
      have hid : (List.splitOn ',' cs).modifyHead (fun seg => seg) = List.splitOn ',' cs := by
        cases List.splitOn ',' cs <;> rfl
      rw [hid] at h0
      by_cases h : cur = []
      · simp [h, h0, List.splitOn]
      · simp [h, h0, List.splitOn]
    · have hb : (c == ',') = false := by simpa using hc
      simp only [hc, if_false, hb, Bool.false_eq_true]
      rw [ih (cur ++ [c])]
      congr 1
      cases hs : List.splitOnP (fun x => x == ',') cs with
      | nil => simp [List.splitOn, hs]
      | cons a l => simp [List.splitOn, hs]

/-! ## Full delivery -/

theorem FastRemove_last {α : Type} (a : List α) (e : α) :
    FastRemove (a ++ [e]) a.length = some a := by
  simp [FastRemove]

theorem set_append_singleton {α : Type} (a : List α) (e f : α) :
    (a ++ [e]).set a.length f = a ++ [f] :=
  set_append_cons a [] e f

/-- One in-time round from a state whose only entry for `x` is the last one, with index `k`. -/
theorem runRound_deliver (s : State) (x : Nat) (r : Round) (t0 : List ClientJoinInfo_t)
    (ts : ℚ) (k : Nat) (hs : s.g_pNetworkGameServer ≠ none)
    (ht : s.g_ClientsPendingAddon = t0 ++ [⟨x, ts, k⟩]) (h0 : ∀ c ∈ t0, c.steamid ≠ x)
    (hk : k < s.g_vecExtraAddons.length)
    (hx : channelOwner r.clients r.pNetChan = some x)
    (hrec : doubleSub r.tConnect r.tSend < s.g_flRejoinTimeout) :
    runRound s x r =
      some ({ s with g_ClientsPendingAddon :=
                if k + 1 < s.g_vecExtraAddons.length then t0 ++ [⟨x, r.tSend, k + 1⟩] else t0 },
            [rewrittenCall r (s.g_vecExtraAddons.get ⟨k, hk⟩)]) := by
  have hne : s.g_vecExtraAddons ≠ [] := by
    intro h; rw [h] at hk; simp at hk
  have hlen : ¬ s.g_vecExtraAddons.length = 0 := by omega
  have hlook : GetPendingClient s.g_ClientsPendingAddon x = some (t0.length, ⟨x, ts, k⟩) := by
    rw [ht]; exact GetPendingClient_append t0 [] _ rfl h0
  have hch := (GetPendingClientNetChan_owner s r.clients r.pNetChan x hs hx).trans hlook
  obtain ⟨nm, hnm, hsend⟩ := Hook_SendNetMessage_rewrite s r.clients r.pNetChan r.pData r.a4
    r.tSend t0.length ⟨x, ts, k⟩ hne hch (by simp) (by simp; exact hk)
  have hnm2 : nm = s.g_vecExtraAddons.get ⟨k, hk⟩ := by
    simp only [Int.toNat_ofNat] at hnm
    rw [List.getElem?_eq_getElem hk] at hnm
    simp only [Option.some.injEq] at hnm
    rw [← hnm]; rfl
  subst hnm2
  unfold runRound
  rw [hsend]
  simp only [ht, set_append_singleton]
  unfold Hook_ClientConnect
  simp only [if_neg hlen, GetPendingClient_append t0 [] (⟨x, r.tSend, k⟩ : ClientJoinInfo_t) rfl h0,
    hrec, if_true, set_append_singleton]
  by_cases hlt : k + 1 < s.g_vecExtraAddons.length
  · have hlt2 : (k : Int) + 1 < (s.g_vecExtraAddons.length : Int) := by omega
    obtain ⟨nm2, hnm2⟩ := Element_isSome s.g_vecExtraAddons ((k : Int) + 1) ⟨by omega, hlt2⟩
    simp only [hlt2, if_true, hnm2, hlt]
    rfl
  · have hlt2 : ¬ (k : Int) + 1 < (s.g_vecExtraAddons.length : Int) := by omega
    simp only [hlt2, if_false, FastRemove_last, hlt]
    rfl

theorem runRounds_deliver (x : Nat) (t0 : List ClientJoinInfo_t)
    (h0 : ∀ c ∈ t0, c.steamid ≠ x) :
    ∀ (rounds : List Round) (s : State) (ts : ℚ) (k : Nat),
      s.g_pNetworkGameServer ≠ none →
      s.g_ClientsPendingAddon = t0 ++ [⟨x, ts, k⟩] →
      k + rounds.length ≤ s.g_vecExtraAddons.length → k < s.g_vecExtraAddons.length →
      (∀ r ∈ rounds, channelOwner r.clients r.pNetChan = some x ∧
        doubleSub r.tConnect r.tSend < s.g_flRejoinTimeout) →
      ∃ s2, runRounds s x rounds =
          some (s2, List.zipWith rewrittenCall rounds (s.g_vecExtraAddons.drop k)) ∧
        SameConfig s s2 ∧
        (k + rounds.length < s.g_vecExtraAddons.length →
          ∃ ts2, s2.g_ClientsPendingAddon = t0 ++ [⟨x, ts2, ((k + rounds.length : Nat) : Int)⟩]) ∧
        (k + rounds.length = s.g_vecExtraAddons.length → s2.g_ClientsPendingAddon = t0) := by
  intro rounds
  induction rounds with
  | nil =>
    intro s ts k _ ht _ hk _
    refine ⟨s, by simp [runRounds], ⟨rfl, rfl, rfl, rfl⟩, ?_, ?_⟩
    · intro _; exact ⟨ts, by simpa using ht⟩
    · intro h; simp at h; omega
  | cons r rs ih =>
    intro s ts k hs ht hle hk hall
    obtain ⟨hx, hrec⟩ := hall r (List.mem_cons_self _ _)
    have hround := runRound_deliver s x r t0 ts k hs ht h0 hk hx hrec
    have hdrop : s.g_vecExtraAddons.drop k =
        s.g_vecExtraAddons.get ⟨k, hk⟩ :: s.g_vecExtraAddons.drop (k + 1) := by
      rw [List.drop_eq_getElem_cons hk]; rfl
    by_cases hlt : k + 1 < s.g_vecExtraAddons.length
    · rw [if_pos hlt] at hround
      obtain ⟨s2, hrun, hcfg, hA, hB⟩ := ih
        { s with g_ClientsPendingAddon := t0 ++ [⟨x, r.tSend, k + 1⟩] } r.tSend (k + 1)
        hs (by simp) (by simp only [List.length_cons] at hle; simp only; omega) hlt
        (fun r2 hr2 => hall r2 (List.mem_cons_of_mem _ hr2))
      refine ⟨s2, ?_, hcfg, ?_, ?_⟩
      · simp only [runRounds, hround, hrun, hdrop, List.zipWith_cons_cons, List.singleton_append]
      · intro h
        simp only [List.length_cons] at h
        obtain ⟨ts2, hts2⟩ := hA (by simp only; omega)
        refine ⟨ts2, ?_⟩
        rw [hts2]
        simp only [List.length_cons]
        congr 4
        omega
      · intro h
        simp only [List.length_cons] at h
        exact hB (by simp only; omega)
    · rw [if_neg hlt] at hround
      have hrs : rs = [] := by
        simp only [List.length_cons] at hle
        exact List.length_eq_zero.mp (by omega)
      subst hrs
      refine ⟨{ s with g_ClientsPendingAddon := t0 }, ?_, ⟨rfl, rfl, rfl, rfl⟩, ?_, ?_⟩
      · simp only [runRounds, hround, hdrop, List.zipWith_cons_cons, List.zipWith_nil_left,
          List.append_nil]
      · intro h; simp only [List.length_cons, List.length_nil] at h; omega
      · intro _; rfl

/-- In a table with pairwise distinct identities the lookup finds every entry. -/
theorem GetPendingClient_of_mem {t : List ClientJoinInfo_t} {x : Nat} {e : ClientJoinInfo_t}
    (hn : t.Pairwise (fun c d => c.steamid ≠ d.steamid)) (he : e ∈ t) (hx : e.steamid = x) :
    ∃ i, GetPendingClient t x = some (i, e) := by
  cases h : GetPendingClient t x with
  | none => exact absurd hx (GetPendingClient_none.mp h e he)
  | some p =>
    obtain ⟨i, e2⟩ := p
    obtain ⟨a, b, hab, _, hex, _⟩ := GetPendingClient_some h
    have hnd : (steamids t).Nodup := by
      unfold steamids List.Nodup
      exact List.pairwise_map.mpr hn
    have : e2 = e := entry_unique hnd (by rw [hab]; simp) he (hex.trans hx.symm)
    exact ⟨i, by rw [this]⟩

theorem GetPendingClientNetChan_some_owner {s : State} {clients : ClientList}
    {pNetChan i : Nat} {e : ClientJoinInfo_t}
    (h : GetPendingClientNetChan s clients pNetChan = some (i, e)) :
    s.g_pNetworkGameServer ≠ none ∧ channelOwner clients pNetChan = some e.steamid ∧
      e ∈ s.g_ClientsPendingAddon := by
  unfold GetPendingClientNetChan GetClientList at h
  cases hp : s.g_pNetworkGameServer with
  | none => rw [hp] at h; exact absurd h (by simp)
  | some p =>
    rw [hp] at h
    simp only [GetPendingClientLoop_eq, Option.bind_eq_some] at h
    obtain ⟨x, hx, hl⟩ := h
    obtain ⟨a, b, hab, _, hex, _⟩ := GetPendingClient_some hl
    refine ⟨by simp, by rw [hex]; exact hx, by rw [hab]; simp⟩

/-- The stale branch of `Hook_ClientConnect`: the first entry of `x` has a valid index and the
elapsed time computed at line 340 is not below the timeout. -/
theorem Hook_ClientConnect_stale (s : State) (x : Nat) (now : ℚ)
    (a b : List ClientJoinInfo_t) (e : ClientJoinInfo_t)
    (hne : s.g_vecExtraAddons ≠ []) (htable : s.g_ClientsPendingAddon = a ++ e :: b)
    (ha : ∀ c ∈ a, c.steamid ≠ x) (hex : e.steamid = x)
    (h0 : 0 ≤ e.addon) (h1 : e.addon < (s.g_vecExtraAddons.length : Int))
    (hstale : s.g_flRejoinTimeout ≤ doubleSub now e.signon_timestamp) :
    Hook_ClientConnect s x now = some (s, true) := by
  have hlen : ¬ s.g_vecExtraAddons.length = 0 := fun h => hne (List.length_eq_zero.mp h)
  have hsome : GetPendingClient s.g_ClientsPendingAddon x = some (a.length, e) := by
    rw [htable]; exact GetPendingClient_append a b e hex ha
  obtain ⟨nm, hnm⟩ := Element_isSome s.g_vecExtraAddons e.addon ⟨h0, h1⟩
  unfold Hook_ClientConnect
  rw [if_neg hlen, hsome]
  simp only [if_neg (not_lt.mpr hstale), hnm]

/-- The stale branch under the exact condition: when the timeout is a double (as every
`float` is) and the exact difference of the two times is not below it, the rounded difference
is not below it either. -/
theorem Hook_ClientConnect_stale_exact (s : State) (x : Nat) (now : ℚ)
    (a b : List ClientJoinInfo_t) (e : ClientJoinInfo_t)
    (hne : s.g_vecExtraAddons ≠ []) (htable : s.g_ClientsPendingAddon = a ++ e :: b)
    (ha : ∀ c ∈ a, c.steamid ≠ x) (hex : e.steamid = x)
    (h0 : 0 ≤ e.addon) (h1 : e.addon < (s.g_vecExtraAddons.length : Int))
    (hrep : roundToDouble s.g_flRejoinTimeout = s.g_flRejoinTimeout)
    (hstale : s.g_flRejoinTimeout ≤ now - e.signon_timestamp) :
    Hook_ClientConnect s x now = some (s, true) :=
  Hook_ClientConnect_stale s x now a b e hne htable ha hex h0 h1
    (le_doubleSub_of_le_sub hrep hstale)

/-! ## The claims -/

/-- C1 as stated fails: with one addon and timeout 10 s, the signon message to client 5
leaves at 0.1 s and the client is back at 10.1 s (both times are doubles).  The exact
difference is below 10, but line 340 computes the rounded difference 10.0, so the code takes
the stale branch: after this one reconnection the entry of client 5 is still in the table,
with index 0. -/
theorem C1_exact_time_counterexample :
    roundToDouble tenthDouble = tenthDouble ∧
    roundToDouble tenAndTenthDouble = tenAndTenthDouble ∧
    roundingRound.tConnect - roundingRound.tSend < roundingState.g_flRejoinTimeout ∧
    doubleSub roundingRound.tConnect roundingRound.tSend = 10 ∧
    channelOwner roundingRound.clients roundingRound.pNetChan = some 5 ∧
    Hook_ClientConnect roundingState 5 0 =
      some ({ roundingState with g_ClientsPendingAddon := [⟨5, 0, 0⟩] }, true) ∧
    runRounds { roundingState with g_ClientsPendingAddon := [⟨5, 0, 0⟩] } 5 [roundingRound] =
      some ({ roundingState with g_ClientsPendingAddon := [⟨5, tenthDouble, 0⟩] },
            [⟨9, 7, changelevelPayload, 0⟩]) := by
  refine ⟨by decide!, by decide!, by decide!, by decide!, by decide, by decide, by decide!⟩

/-- C1 amended: let the addon list `L` be non-empty and never replaced, the game server be
known, and `x` have no pending entry.  After `Hook_ClientConnect(x)`, run `N = length L`
rounds, each a signon message (id 7) on a channel owned by `x` followed by a reconnection of
`x` for which the elapsed time computed at line 340, the difference of the two times rounded
to the nearest double, is below `g_flRejoinTimeout`.  Then the first connect returns true and
appends the entry `{x, 0, 0}`; for every `j <= N` the first `j` rounds run without error and
the `j` forwarded messages are the incoming ones rewritten to carry `L[0], ..., L[j-1]` in
this order with the change-level state; after `j < N` rounds the table is the initial one
followed by the entry of `x` with `addon = j`; and after `N` rounds it is the initial table,
without any entry for `x`. -/
theorem C1_full_delivery_amended (s0 : State) (x : Nat) (t0 : ℚ) (rounds : List Round)
    (hne : s0.g_vecExtraAddons ≠ []) (hs : s0.g_pNetworkGameServer ≠ none)
    (hx : ∀ c ∈ s0.g_ClientsPendingAddon, c.steamid ≠ x)
    (hlen : rounds.length = s0.g_vecExtraAddons.length)
    (hall : ∀ r ∈ rounds, channelOwner r.clients r.pNetChan = some x ∧
      doubleSub r.tConnect r.tSend < s0.g_flRejoinTimeout) :
    Hook_ClientConnect s0 x t0 =
      some ({ s0 with g_ClientsPendingAddon := s0.g_ClientsPendingAddon ++ [⟨x, 0, 0⟩] },
            true) ∧
    ∀ j, j ≤ rounds.length →
      ∃ sj, runRounds
            { s0 with g_ClientsPendingAddon := s0.g_ClientsPendingAddon ++ [⟨x, 0, 0⟩] } x
            (rounds.take j) =
          some (sj, List.zipWith rewrittenCall (rounds.take j) s0.g_vecExtraAddons) ∧
        sj.g_vecExtraAddons = s0.g_vecExtraAddons ∧
        (j < rounds.length →
          ∃ ts, sj.g_ClientsPendingAddon = s0.g_ClientsPendingAddon ++ [⟨x, ts, (j : Int)⟩]) ∧
        (j = rounds.length →
          sj.g_ClientsPendingAddon = s0.g_ClientsPendingAddon ∧
          ∀ c ∈ sj.g_ClientsPendingAddon, c.steamid ≠ x) := by
  have hpos : 0 < s0.g_vecExtraAddons.length := List.length_pos.mpr hne
  have hl0 : ¬ s0.g_vecExtraAddons.length = 0 := by omega
  obtain ⟨nm, hnm⟩ := Element_isSome s0.g_vecExtraAddons 0 ⟨le_refl _, by omega⟩
  refine ⟨?_, ?_⟩
  · unfold Hook_ClientConnect
    rw [if_neg hl0, GetPendingClient_none.mpr hx]
    simp only [hnm, AddPendingClient]
  · intro j hj
    have htake : (rounds.take j).length = j := by
      rw [List.length_take]; omega
    obtain ⟨sj, hrun, ⟨_, hv, _, _⟩, hA, hB⟩ := runRounds_deliver x s0.g_ClientsPendingAddon hx
      (rounds.take j)
      { s0 with g_ClientsPendingAddon := s0.g_ClientsPendingAddon ++ [⟨x, 0, 0⟩] } 0 0
      hs rfl (by simp only [htake]; omega) hpos
      (fun r hr => hall r (List.mem_of_mem_take hr))
    simp only [List.drop_zero] at hrun
    refine ⟨sj, hrun, hv, ?_, ?_⟩
    · intro hlt
      obtain ⟨ts2, hts2⟩ := hA (by simp only [htake]; omega)
      refine ⟨ts2, ?_⟩
      rw [hts2]
      simp only [htake, zero_add]
    · intro heq
      have := hB (by simp only [htake]; omega)
      rw [this]
      exact ⟨rfl, hx⟩

/-- Worked example for C1: two addons, client 5, two in-time rounds. -/
theorem C1_full_delivery_amended_witness :
    (∀ c ∈ exampleState.g_ClientsPendingAddon, c.steamid ≠ 5) ∧
    (∀ r ∈ exampleRounds, channelOwner r.clients r.pNetChan = some 5 ∧
      doubleSub r.tConnect r.tSend < exampleState.g_flRejoinTimeout) ∧
    Hook_ClientConnect exampleState 5 99 =
      some ({ exampleState with g_ClientsPendingAddon := [⟨5, 0, 0⟩] }, true) ∧
    runRounds { exampleState with g_ClientsPendingAddon := [⟨5, 0, 0⟩] } 5
        (exampleRounds.take 1) =
      some ({ exampleState with g_ClientsPendingAddon := [⟨5, 100, 1⟩] },
            [⟨9, 7, ⟨['a'], SignonState.SIGNONSTATE_CHANGELEVEL, 0⟩, 0⟩]) ∧
    runRounds { exampleState with g_ClientsPendingAddon := [⟨5, 0, 0⟩] } 5 exampleRounds =
      some (exampleState,
            [⟨9, 7, ⟨['a'], SignonState.SIGNONSTATE_CHANGELEVEL, 0⟩, 0⟩,
             ⟨8, 7, ⟨['b'], SignonState.SIGNONSTATE_CHANGELEVEL, 0⟩, 0⟩]) :=
  ⟨by decide, by decide!,
    (C1_full_delivery_amended exampleState 5 99 exampleRounds (by decide) (by decide)
      (by decide) (by decide) (by decide!)).1, by decide!, by decide!⟩

/-- C2 fails on the code: `reconfigOps` leads to a state with a non-empty list in which client
5 has the entry `{5, 100, 1}`; at time 200 the elapsed time is over the timeout, yet
`Hook_ClientConnect(5)` does not return with the table unchanged: its stale branch reads
`g_vecExtraAddons[1]` out of bounds (line 358), and so does the next signon message to
client 5 (lines 288, 291). -/
theorem C2_stale_retry_reads_out_of_bounds :
    run exampleState reconfigOps = some reconfigState ∧
    reconfigState.g_vecExtraAddons ≠ [] ∧
    (⟨5, 100, 1⟩ : ClientJoinInfo_t) ∈ reconfigState.g_ClientsPendingAddon ∧
    (200 : ℚ) - 100 ≥ reconfigState.g_flRejoinTimeout ∧
    doubleSub 200 100 ≥ reconfigState.g_flRejoinTimeout ∧
    channelOwner [some ⟨9, 5⟩] 9 = some 5 ∧
    Hook_ClientConnect reconfigState 5 200 = none ∧
    Hook_SendNetMessage reconfigState [some ⟨9, 5⟩] 9 7 examplePayload 0 201 = none := by
  refine ⟨by decide!, by decide, by decide, by decide!, by decide!, by decide, by decide!,
    by decide⟩

/-- C3 fails on the code: an entry whose timestamp is still the initial 0 is compared like
any other, so a reconnection at a time below the timeout (here 510 s against 1000 s) takes the
recent-retry branch: with two addons the index moves from 0 to 1 although addon 0 was never
sent, and with one addon the entry is removed. -/
theorem C3_unset_timestamp_advances :
    run unsentState [Op.ClientConnect 5 500] =
      some { unsentState with g_ClientsPendingAddon := [⟨5, 0, 0⟩] } ∧
    Hook_ClientConnect { unsentState with g_ClientsPendingAddon := [⟨5, 0, 0⟩] } 5 510 =
      some ({ unsentState with g_ClientsPendingAddon := [⟨5, 0, 1⟩] }, true) ∧
    Hook_ClientConnect
        { scenarioState with g_flRejoinTimeout := 1000, g_ClientsPendingAddon := [⟨5, 0, 0⟩] }
        5 510 =
      some ({ scenarioState with g_flRejoinTimeout := 1000, g_ClientsPendingAddon := [] },
            true) := by
  refine ⟨by decide!, by decide!, by decide!⟩

/-- C4 fails on the code: after `reconfigOps` the entry of client 5 has index 1 while the
list has one element, and both the next signon message to client 5 and its next stale
reconnection read `g_vecExtraAddons[1]` out of bounds. -/
theorem C4_index_out_of_bounds_after_reconfiguration :
    run exampleState reconfigOps = some reconfigState ∧
    reconfigState.g_vecExtraAddons.length = 1 ∧
    GetPendingClient reconfigState.g_ClientsPendingAddon 5 = some (0, ⟨5, 100, 1⟩) ∧
    Hook_SendNetMessage reconfigState [some ⟨9, 5⟩] 9 7 examplePayload 0 102 = none ∧
    Hook_ClientConnect reconfigState 5 200 = none := by
  refine ⟨by decide!, by decide, by decide, by decide, by decide!⟩

/-- C5: in every state reachable from a state with an empty pending table by any sequence of
`mm_extra_addons`, `mm_extra_addons_timeout`, `Hook_ClientConnect`, `Hook_SendNetMessage` and
`Hook_StartupServer` events, no two entries of `g_ClientsPendingAddon` have the same
steamid. -/
theorem C5_identity_uniqueness (s0 s : State) (ops : List Op)
    (h0 : s0.g_ClientsPendingAddon = []) (hrun : run s0 ops = some s) :
    s.g_ClientsPendingAddon.Pairwise (fun c d => c.steamid ≠ d.steamid) := by
  have h : (steamids s.g_ClientsPendingAddon).Nodup :=
    run_nodup ops s0 s hrun (by rw [h0]; exact List.nodup_nil)
  unfold steamids List.Nodup at h
  exact List.pairwise_map.mp h

/-- Worked example for C5: the trace `exampleOps`. -/
theorem C5_identity_uniqueness_witness :
    exampleState.g_ClientsPendingAddon = [] ∧ run exampleState exampleOps = some exampleState2 ∧
    exampleState2.g_ClientsPendingAddon.Pairwise (fun c d => c.steamid ≠ d.steamid) :=
  ⟨rfl, by decide!,
    C5_identity_uniqueness exampleState exampleState2 exampleOps rfl (by decide!)⟩

/-- C6 as stated fails.  By design: in the scenario state the message has id 7, the list is
non-empty and the owner of channel 9, client 5, has a pending entry, but the incoming payload
already names addon `100` and the change-level state, so the payload forwarded to the
original function does not differ from it.  By the slip of C4: in `reconfigState` the same
condition holds and the hook reads `g_vecExtraAddons[1]` out of bounds. -/
theorem C6_payload_differs_iff_counterexample :
    ((7 : Int) = 7 ∧ scenarioState.g_vecExtraAddons ≠ [] ∧
      scenarioState.g_pNetworkGameServer ≠ none ∧ channelOwner [some ⟨9, 5⟩] 9 = some 5 ∧
      (⟨5, 40, 0⟩ : ClientJoinInfo_t) ∈ scenarioState.g_ClientsPendingAddon) ∧
    Hook_SendNetMessage scenarioState [some ⟨9, 5⟩] 9 7 changelevelPayload 0 50 =
      some ({ scenarioState with g_ClientsPendingAddon := [⟨5, 50, 0⟩] },
            [⟨9, 7, changelevelPayload, 0⟩]) ∧
    ¬ (SendNetMessageCall.mk 9 7 changelevelPayload 0).pData ≠ changelevelPayload ∧
    (reconfigState.g_vecExtraAddons ≠ [] ∧ reconfigState.g_pNetworkGameServer ≠ none ∧
      (⟨5, 100, 1⟩ : ClientJoinInfo_t) ∈ reconfigState.g_ClientsPendingAddon) ∧
    Hook_SendNetMessage reconfigState [some ⟨9, 5⟩] 9 7 examplePayload 0 102 = none := by
  refine ⟨by decide, by decide, by decide, by decide, by decide⟩

/-- C6 amended.  The condition is: the message id is 7, the addon list is non-empty, the game
server is known, the channel has an owner `x` in the client vector, and the pending table has
an entry with steamid `x`.  When the condition fails, `Hook_SendNetMessage` forwards the
message exactly once with its payload unchanged and leaves the state unchanged.  When it
holds and the first entry `e` with steamid `x` (the only one in a table keyed by identity) has
a valid addon index, the hook forwards the message exactly once, with the payload carrying
`g_vecExtraAddons[e.addon]` and `SIGNONSTATE_CHANGELEVEL` and its other fields unchanged, and
the only change to the state is that `e` takes the current time as timestamp. -/
theorem C6_send_net_message_amended (s : State) (clients : ClientList) (pNetChan : Nat)
    (m_MessageId : Int) (pData : CNETMsg_SignonState) (a4 : Int) (now : ℚ) :
    (¬ (m_MessageId = 7 ∧ s.g_vecExtraAddons ≠ [] ∧ s.g_pNetworkGameServer ≠ none ∧
          ∃ x, channelOwner clients pNetChan = some x ∧
            ∃ c ∈ s.g_ClientsPendingAddon, c.steamid = x) →
      Hook_SendNetMessage s clients pNetChan m_MessageId pData a4 now =
        some (s, [⟨pNetChan, m_MessageId, pData, a4⟩])) ∧
    (∀ (x : Nat) (a b : List ClientJoinInfo_t) (e : ClientJoinInfo_t),
      m_MessageId = 7 → s.g_vecExtraAddons ≠ [] → s.g_pNetworkGameServer ≠ none →
      channelOwner clients pNetChan = some x →
      s.g_ClientsPendingAddon = a ++ e :: b → (∀ c ∈ a, c.steamid ≠ x) → e.steamid = x →
      0 ≤ e.addon → e.addon < (s.g_vecExtraAddons.length : Int) →
      ∃ addonName, s.g_vecExtraAddons[e.addon.toNat]? = some addonName ∧
        Hook_SendNetMessage s clients pNetChan m_MessageId pData a4 now =
          some ({ s with g_ClientsPendingAddon := a ++ { e with signon_timestamp := now } :: b },
                [⟨pNetChan, m_MessageId,
                  { pData with addons := addonName,
                               signon_state := SignonState.SIGNONSTATE_CHANGELEVEL }, a4⟩])) := by
  refine ⟨?_, ?_⟩
  · intro hcond
    unfold Hook_SendNetMessage
    split
    · rfl
    · rename_i hc
      have hid : m_MessageId = 7 := by
        by_contra h; exact hc (Or.inl h)
      have hne : s.g_vecExtraAddons ≠ [] := by
        intro h; exact hc (Or.inr (by rw [h]; rfl))
      cases hp : GetPendingClientNetChan s clients pNetChan with
      | none => rfl
      | some p =>
        obtain ⟨i, e⟩ := p
        obtain ⟨hs, hown, hmem⟩ := GetPendingClientNetChan_some_owner hp
        exact absurd ⟨hid, hne, hs, e.steamid, hown, e, hmem, rfl⟩ hcond
  · intro x a b e hid hne hs hown htable ha hex h0 h1
    subst hid
    have hsome : GetPendingClientNetChan s clients pNetChan = some (a.length, e) := by
      rw [GetPendingClientNetChan_owner s clients pNetChan x hs hown, htable]
      exact GetPendingClient_append a b e hex ha
    obtain ⟨nm, hnm, hsend⟩ := Hook_SendNetMessage_rewrite s clients pNetChan pData a4 now
      a.length e hne hsome h0 h1
    refine ⟨nm, hnm, ?_⟩
    rw [hsend, htable, set_append_cons]

/-- Worked example for C6: the first signon message of the spec's scenario. -/
theorem C6_send_net_message_amended_witness :
    channelOwner [some ⟨9, 5⟩] 9 = some 5 ∧
    scenarioState.g_ClientsPendingAddon = [] ++ (⟨5, 40, 0⟩ : ClientJoinInfo_t) :: [] ∧
    ∃ addonName, scenarioState.g_vecExtraAddons[0]? = some addonName ∧
      Hook_SendNetMessage scenarioState [some ⟨9, 5⟩] 9 7 examplePayload 3 50 =
        some ({ scenarioState with g_ClientsPendingAddon := [⟨5, 50, 0⟩] },
              [⟨9, 7,
                { examplePayload with addons := addonName,
                                      signon_state := SignonState.SIGNONSTATE_CHANGELEVEL },
                3⟩]) :=
  ⟨by decide, rfl,
    (C6_send_net_message_amended scenarioState [some ⟨9, 5⟩] 9 7 examplePayload 3 50).2
      5 [] [] ⟨5, 40, 0⟩ rfl (by decide) (by decide) (by decide) rfl (by simp) rfl
      (by decide) (by decide)⟩

/-- C7 as stated fails: for the configuration string `,` the addon list is empty, yet the
request is not passed through unchanged: its addon field `mapA` becomes `mapA,,`. -/
theorem C7_empty_list_not_passthrough_counterexample :
    (mm_extra_addons exampleState [['m', 'm'], [',']]).g_vecExtraAddons = [] ∧
    (Hook_HostStateRequest (mm_extra_addons exampleState [['m', 'm'], [',']])
        mapARequest).sAddonString = ['m', 'a', 'p', 'A', ',', ','] ∧
    Hook_HostStateRequest (mm_extra_addons exampleState [['m', 'm'], [',']]) mapARequest ≠
      mapARequest := by
  decide

/-- C7 amended: after `mm_extra_addons str` the addon list is the list of non-empty segments
of `str` split on commas, and `Hook_HostStateRequest` passes the request on with the addon
field `e` unchanged when `str` is empty, equal to `str` when `str` is non-empty and `e` is
empty, and equal to `e ++ "," ++ str` when both are non-empty.  When `str` has no empty
segment, `str` is empty exactly when the addon list is, and `str` is the comma-join of the
addon list. -/
theorem C7_host_state_request_amended (s0 : State) (cmd str e : CStr) (more : List CStr)
    (others : Nat) :
    (mm_extra_addons s0 (cmd :: str :: more)).g_vecExtraAddons =
      (str.splitOn ',').filter (fun seg => decide (seg ≠ [])) ∧
    Hook_HostStateRequest (mm_extra_addons s0 (cmd :: str :: more)) ⟨e, others⟩ =
      ⟨if str = [] then e else if e = [] then str else e ++ ',' :: str, others⟩ ∧
    (NoEmptySegment str →
      ((mm_extra_addons s0 (cmd :: str :: more)).g_vecExtraAddons = [] ↔ str = []) ∧
      joinComma (mm_extra_addons s0 (cmd :: str :: more)).g_vecExtraAddons = str) := by
  refine ⟨?_, ?_, ?_⟩
  · have h := V_SplitStringAux_eq_splitOn str []
    have hid : (List.splitOn ',' str).modifyHead (fun seg => [] ++ seg) = List.splitOn ',' str := by
      cases List.splitOn ',' str <;> rfl
    rw [hid] at h
    exact h
  · unfold Hook_HostStateRequest mm_extra_addons
    by_cases hs : str = []
    · simp [hs]
    · by_cases he : e = []
      · simp [hs, he]
      · simp [hs, he]
  · intro h
    exact V_SplitString_join str h

/-- Worked example for C7, the one of the spec: `mapA` and `123,456` give `mapA,123,456`. -/
theorem C7_host_state_request_amended_witness :
    NoEmptySegment ['1', '2', '3', ',', '4', '5', '6'] ∧
    (mm_extra_addons exampleState
        [['m', 'm'], ['1', '2', '3', ',', '4', '5', '6']]).g_vecExtraAddons =
      [['1', '2', '3'], ['4', '5', '6']] ∧
    (Hook_HostStateRequest
        (mm_extra_addons exampleState [['m', 'm'], ['1', '2', '3', ',', '4', '5', '6']])
        mapARequest).sAddonString =
      ['m', 'a', 'p', 'A', ',', '1', '2', '3', ',', '4', '5', '6'] ∧
    joinComma (mm_extra_addons exampleState
        [['m', 'm'], ['1', '2', '3', ',', '4', '5', '6']]).g_vecExtraAddons =
      ['1', '2', '3', ',', '4', '5', '6'] :=
  ⟨by decide, by decide, by decide,
    ((C7_host_state_request_amended exampleState ['m', 'm'] ['1', '2', '3', ',', '4', '5', '6']
      ['m', 'a', 'p', 'A'] [] 0).2.2 (by decide)).2⟩

/-- C8: `Hook_StartupServer` leaves the pending table empty whatever it held; and after a
restart followed by any events other than a connection attempt of `x`, with a non-empty addon
list at that moment, `Hook_ClientConnect(x)` finds no entry for `x` (first contact), returns
true and appends `{x, 0, 0}`, which is then the only entry for `x`. -/
theorem C8_restart_then_first_contact (s : State) (server : Option Nat) :
    (Hook_StartupServer s server).g_ClientsPendingAddon = [] ∧
    ∀ (ops : List Op) (s2 : State) (x : Nat) (now : ℚ),
      (∀ op ∈ ops, op.isConnectOf x = false) →
      run (Hook_StartupServer s server) ops = some s2 →
      s2.g_vecExtraAddons ≠ [] →
      GetPendingClient s2.g_ClientsPendingAddon x = none ∧
      ∃ s3, Hook_ClientConnect s2 x now = some (s3, true) ∧
        s3.g_ClientsPendingAddon = s2.g_ClientsPendingAddon ++ [⟨x, 0, 0⟩] ∧
        s3.g_ClientsPendingAddon.filter (fun c => decide (c.steamid = x)) = [⟨x, 0, 0⟩] := by
  refine ⟨rfl, ?_⟩
  intro ops s2 x now hops hrun hne
  have hx : ∀ c ∈ s2.g_ClientsPendingAddon, c.steamid ≠ x :=
    run_no_entry ops _ s2 hops hrun (by intro c hc; simp [Hook_StartupServer] at hc)
  have hnone := GetPendingClient_none.mpr hx
  refine ⟨hnone, ?_⟩
  have hlen : ¬ s2.g_vecExtraAddons.length = 0 := by
    intro h0; exact hne (List.length_eq_zero.mp h0)
  obtain ⟨nm, hnm⟩ := Element_isSome s2.g_vecExtraAddons 0
    ⟨le_refl _, by have := List.length_pos.mpr hne; omega⟩
  refine ⟨{ s2 with g_ClientsPendingAddon := AddPendingClient s2.g_ClientsPendingAddon x }, ?_, rfl, ?_⟩
  · unfold Hook_ClientConnect
    rw [if_neg hlen, hnone]
    simp only [hnm]
  · simp only [AddPendingClient, List.filter_append, filter_eq_of_no_entry _ x hx]
    simp

/-- Worked example for C8: restart, client 6 connects, then client 5 connects. -/
theorem C8_restart_then_first_contact_witness :
    (∀ op ∈ [Op.ClientConnect 6 100], op.isConnectOf 5 = false) ∧
    run (Hook_StartupServer exampleState2 (some 2)) [Op.ClientConnect 6 100] =
      some { exampleState with g_pNetworkGameServer := some 2,
                               g_ClientsPendingAddon := [⟨6, 0, 0⟩] } ∧
    ∃ s3, Hook_ClientConnect { exampleState with g_pNetworkGameServer := some 2,
                                                 g_ClientsPendingAddon := [⟨6, 0, 0⟩] } 5 101 =
        some (s3, true) ∧
      s3.g_ClientsPendingAddon = [⟨6, 0, 0⟩, ⟨5, 0, 0⟩] :=
  ⟨by decide, by decide!,
    ((C8_restart_then_first_contact exampleState2 (some 2)).2 [Op.ClientConnect 6 100]
      { exampleState with g_pNetworkGameServer := some 2, g_ClientsPendingAddon := [⟨6, 0, 0⟩] }
      5 101 (by decide) (by decide!) (by decide)).2.imp fun _ h => ⟨h.1, h.2.1⟩⟩

/-- C9: for a pending table with pairwise distinct identities, `Hook_ClientConnect(x)`
returns whenever the entry found for `x` has a valid addon index, and whenever it returns
the entries of the other identities are the same before and after (up to their order), an
entry for `x` present before and after keeps its `signon_timestamp`, and when `x` reconnects
in time with no addon left (the list being non-empty), what disappears is exactly the one
entry of `x`. -/
theorem C9_connect_frame (s : State) (x : Nat) (now : ℚ)
    (hn : s.g_ClientsPendingAddon.Pairwise (fun c d => c.steamid ≠ d.steamid)) :
    ((∀ i e, GetPendingClient s.g_ClientsPendingAddon x = some (i, e) →
        0 ≤ e.addon ∧ e.addon < (s.g_vecExtraAddons.length : Int)) →
      ∃ s2, Hook_ClientConnect s x now = some (s2, true)) ∧
    ∀ s2 r, Hook_ClientConnect s x now = some (s2, r) →
      (s2.g_ClientsPendingAddon.filter (fun c => decide (c.steamid ≠ x))).Perm
        (s.g_ClientsPendingAddon.filter (fun c => decide (c.steamid ≠ x))) ∧
      (∀ e ∈ s.g_ClientsPendingAddon, ∀ e2 ∈ s2.g_ClientsPendingAddon,
        e.steamid = x → e2.steamid = x → e2.signon_timestamp = e.signon_timestamp) ∧
      (∀ i e, s.g_vecExtraAddons ≠ [] →
        GetPendingClient s.g_ClientsPendingAddon x = some (i, e) →
        doubleSub now e.signon_timestamp < s.g_flRejoinTimeout →
        ¬ e.addon + 1 < (s.g_vecExtraAddons.length : Int) →
        (∀ c ∈ s2.g_ClientsPendingAddon, c.steamid ≠ x) ∧
        s2.g_ClientsPendingAddon.length + 1 = s.g_ClientsPendingAddon.length ∧
        s2.g_ClientsPendingAddon.Perm
          (s.g_ClientsPendingAddon.filter (fun c => decide (c.steamid ≠ x)))) := by
  have hnd : (steamids s.g_ClientsPendingAddon).Nodup := by
    unfold steamids List.Nodup
    exact List.pairwise_map.mpr hn
  refine ⟨fun h => Hook_ClientConnect_defined s x now h, ?_⟩
  intro s2 r hr
  obtain ⟨_, _, ⟨hc, hwhy⟩ | ⟨hnew, _, hc⟩ | ⟨a, e, b, hab, hex, ha, hrec, hlt, _, hc⟩ |
    ⟨a, e, b, hab, hex, ha, hrec, hge, hc⟩⟩ := Hook_ClientConnect_spec hr
  · refine ⟨by rw [hc], ?_, ?_⟩
    · intro e he e2 he2 h1 h2
      rw [hc] at he2
      rw [entry_unique hnd he2 he (h2.trans h1.symm)]
    · intro i e hne hsome hrec _
      rcases hwhy with h0 | ⟨i2, e2, hsome2, hstale, _⟩
      · exact absurd h0 hne
      · rw [hsome] at hsome2
        simp only [Option.some.injEq, Prod.mk.injEq] at hsome2
        rw [← hsome2.2] at hstale
        exact absurd hrec hstale
  · refine ⟨?_, ?_, ?_⟩
    · rw [hc, List.filter_append]
      simp
    · intro e he e2 _ h1 _
      exact absurd h1 (hnew e he)
    · intro i e _ hsome
      obtain ⟨a, b, hab, _, hex, _⟩ := GetPendingClient_some hsome
      exact absurd hex (hnew e (by rw [hab]; simp))
  · rw [hab] at hnd
    obtain ⟨hna, hnb⟩ := nodup_split hnd
    rw [hex] at hna hnb
    refine ⟨?_, ?_, ?_⟩
    · rw [hc, hab]
      simp [List.filter_append, List.filter_cons, hex]
    · intro c hcm c2 hcm2 h1 h2
      rw [hab] at hcm
      rw [hc] at hcm2
      have hce : c = e := by
        rcases List.mem_append.mp hcm with h | h
        · exact absurd h1 (hna c h)
        · rcases List.mem_cons.mp h with h | h
          · exact h
          · exact absurd h1 (hnb c h)
      rcases List.mem_append.mp hcm2 with h | h
      · exact absurd h2 (hna c2 h)
      · rcases List.mem_cons.mp h with h | h
        · rw [h, hce]
        · exact absurd h2 (hnb c2 h)
    · intro i e2 _ hsome _ hge
      rw [hab, GetPendingClient_append a b e hex ha] at hsome
      simp only [Option.some.injEq, Prod.mk.injEq] at hsome
      rw [← hsome.2] at hge
      exact absurd hlt hge
  · rw [hab] at hnd
    obtain ⟨hna, hnb⟩ := nodup_split hnd
    rw [hex] at hna hnb
    have hfil : s.g_ClientsPendingAddon.filter (fun c => decide (c.steamid ≠ x)) = a ++ b := by
      rw [hab, List.filter_append, List.filter_cons, filter_ne_of_no_entry a x hna,
        filter_ne_of_no_entry b x hnb]
      simp [hex]
    have hno : ∀ c ∈ s2.g_ClientsPendingAddon, c.steamid ≠ x := by
      intro c hcm
      rcases List.mem_append.mp (hc.mem_iff.mp hcm) with h | h
      · exact hna c h
      · exact hnb c h
    refine ⟨?_, ?_, ?_⟩
    · rw [filter_ne_of_no_entry _ x hno, hfil]
      exact hc
    · intro c _ c2 hcm2 _ h2
      exact absurd h2 (hno c2 hcm2)
    · intro _ _ _ _ _ _
      refine ⟨hno, ?_, by rw [hfil]; exact hc⟩
      rw [hc.length_eq, hab]
      simp
      omega

/-- Worked example for C9: client 5 reconnects in time with no addon left; the entry of client 6 stays. -/
theorem C9_connect_frame_witness :
    exampleState2.g_ClientsPendingAddon.Pairwise (fun c d => c.steamid ≠ d.steamid) ∧
    Hook_ClientConnect exampleState2 5 102 =
      some ({ exampleState with g_ClientsPendingAddon := [⟨6, 0, 0⟩] }, true) ∧
    ([⟨6, 0, 0⟩] : List ClientJoinInfo_t).Perm
      (exampleState2.g_ClientsPendingAddon.filter (fun c => decide (c.steamid ≠ 5))) :=
  ⟨by decide, by decide!,
    ((C9_connect_frame exampleState2 5 102 (by decide)).2
      { exampleState with g_ClientsPendingAddon := [⟨6, 0, 0⟩] } true (by decide!)).1⟩

/-- C10: when the addon list is never replaced, every trace of `Hook_ClientConnect`,
`Hook_SendNetMessage` and `Hook_StartupServer` events (and of `mm_extra_addons` queries and
timeout changes) from an empty pending table runs without any out-of-bounds read, every entry
of the table it reaches has `0 <= addon < Count()`, both hooks are defined in the state it
reaches, and the table stays empty when the list is empty. -/
theorem C10_index_valid_fixed_list (s0 : State) (ops : List Op)
    (h0 : s0.g_ClientsPendingAddon = []) (hops : ∀ op ∈ ops, op.reconfigures = false) :
    ∃ s, run s0 ops = some s ∧ s.g_vecExtraAddons = s0.g_vecExtraAddons ∧
      (∀ e ∈ s.g_ClientsPendingAddon,
        0 ≤ e.addon ∧ e.addon < (s0.g_vecExtraAddons.length : Int)) ∧
      (∀ xuid now, ∃ s2, Hook_ClientConnect s xuid now = some (s2, true)) ∧
      (∀ clients pNetChan m_MessageId pData a4 now,
        ∃ r, Hook_SendNetMessage s clients pNetChan m_MessageId pData a4 now = some r) ∧
      (s0.g_vecExtraAddons = [] → s.g_ClientsPendingAddon = []) := by
  have hi0 : IndexInv s0 := ⟨by rw [h0]; intro e he; simp at he, fun _ => h0⟩
  obtain ⟨s, hrun, hv, hi⟩ := run_indexInv ops s0 hops hi0
  refine ⟨s, hrun, hv, ?_, ?_, ?_, ?_⟩
  · intro e he
    have := hi.1 e he
    rw [hv] at this
    exact this
  · intro xuid now
    refine Hook_ClientConnect_defined s xuid now ?_
    intro i e hsome
    obtain ⟨a, b, hab, _, _, _⟩ := GetPendingClient_some hsome
    exact hi.1 e (by rw [hab]; simp)
  · intro clients pNetChan m_MessageId pData a4 now
    exact Hook_SendNetMessage_defined s clients pNetChan m_MessageId pData a4 now hi.1
  · intro hnil
    exact hi.2 (by rw [hv]; exact hnil)

/-- Worked example for C10: the trace `exampleOps`. -/
theorem C10_index_valid_fixed_list_witness :
    exampleState.g_ClientsPendingAddon = [] ∧ (∀ op ∈ exampleOps, op.reconfigures = false) ∧
    ∃ s, run exampleState exampleOps = some s ∧
      (∀ e ∈ s.g_ClientsPendingAddon, 0 ≤ e.addon ∧ e.addon < 2) :=
  ⟨rfl, by decide,
    (C10_index_valid_fixed_list exampleState exampleOps rfl (by decide)).imp
      fun _ h => ⟨h.1, h.2.2.1⟩⟩

end MultiAddonManager
